import Mathlib

/-! # k8s-ipam: allocation applicator and dynamic resolver

A shallow embedding of `internal/ipam/apply_prefix.go` (`prefixApplicator.Apply`)
and `internal/ipam/getter.go` (`getter.GetIPAllocation`, `getter.getGateway`).

The Go code mutates a RIB and the allocation through pointers and talks to a
watcher.  Here the RIB state is passed explicitly, the allocation after the call
is part of the result, and every RIB write and every watcher call is recorded in
an event log, in program order.
-/

namespace K8sIpam

/-! ## Data model -/

/-- Network prefix as the applicator and the resolver use it (Go `netip.Prefix`):
a comparable value with a textual address and a mask length.  Only equality,
`String()` and `Addr().String()` are ever used by the code under study. -/
structure NetPrefix where
  addr : String
  bits : Nat
deriving DecidableEq

/-- Text of the address part, Go `p.Addr().String()`. -/
def NetPrefix.AddrString (p : NetPrefix) : String := p.addr

/-- Text of the prefix, Go `p.String()`: address, a slash, the mask length. -/
def NetPrefix.String (p : NetPrefix) : String := p.addr ++ "/" ++ toString p.bits

/-- Label set, Go `map[string]string`, as an association list read by first match. -/
abbrev LabelSet := List (String × String)

/-- Go map indexing `m[k]`: the bound value, or the empty string when `k` is unbound. -/
def LabelSet.index (m : LabelSet) (k : String) : String := (m.lookup k).getD ""

/-- Equality of label sets as maps (`labels.Equals`): every key bound in either map
is bound to the same value in both. -/
def labelsEquals (a b : LabelSet) : Bool :=
  (a.map Prod.fst ++ b.map Prod.fst).all fun k => a.lookup k == b.lookup k

/-- Route of the RIB (`table.Route`): prefix, labels and an opaque payload. -/
structure Route where
  Prefix : NetPrefix
  Labels : LabelSet
  Data : List (String × String)
deriving DecidableEq

/-- Constructor `table.NewRoute(cidr, labels, data)`. -/
def NewRoute (cidr : NetPrefix) (l : LabelSet) (d : List (String × String)) : Route :=
  { Prefix := cidr, Labels := l, Data := d }

/-- Label selector handed to `GetByLabel`: the key/value pairs a Route must carry. -/
structure Selector where
  matchLabels : LabelSet
deriving DecidableEq

/-- Whether a label set satisfies a selector. -/
def Selector.Matches (sel : Selector) (l : LabelSet) : Bool :=
  sel.matchLabels.all fun kv => l.lookup kv.1 == some kv.2

/-- Prefix kinds of an allocation request. -/
inductive PrefixKind where
  | PrefixKindNetwork
  | PrefixKindAddress
  | PrefixKindPool
  | PrefixKindAggregate
deriving DecidableEq

/-- Status codes of the allocation protocol (`allocpb.StatusCode`). -/
inductive StatusCode where
  | Valid
  | InValid
  | Unknown
deriving DecidableEq

/-- Status half of an allocation. -/
structure IPAllocationStatus where
  AllocatedPrefix : String
  Gateway : String
deriving DecidableEq

/-- Modelled from the spec: the type `IPAllocation` and its accessors
(`GetPrefixKind`, `GetCreatePrefix`, `GetFullLabels`, `GetPrefixFromNewAlloc`,
`GetLabelSelector`, `GetGatewayLabelSelector`) are declared outside the source
tree.  The request half is represented by the values those accessors return
(they read the request only, never the status); `GetFullLabels` is the merged
label set, `GetPrefixFromNewAlloc` the string form of the resolved prefix or
address, and a selector accessor returns either a selector or an error text. -/
structure IPAllocation where
  GetPrefixKind : PrefixKind
  GetCreatePrefix : Bool
  GetFullLabels : LabelSet
  GetPrefixFromNewAlloc : String
  GetLabelSelector : Except String Selector
  GetGatewayLabelSelector : Except String Selector
  Status : IPAllocationStatus

/-- Modelled from the spec: `iputil.PrefixInfo` is declared outside the source
tree.  It is the parsed request prefix, seen through the three accessors the
applicator calls: the prefix form, the address form, and whether the prefix is a
single-address prefix. -/
structure PrefixInfo where
  GetIPPrefix : NetPrefix
  GetIPAddressPrefix : NetPrefix
  IsAddressPrefix : Bool

/-- Modelled from the spec: the label keys carrying the owner name and the owner
namespace (`NephioNsnNameKey`, `NephioNsnNamespaceKey`) are constants declared
outside the source tree. -/
def NephioNsnNameKey : String := "nephio.org/nsn-name"

/-- Modelled from the spec: see `NephioNsnNameKey`. -/
def NephioNsnNamespaceKey : String := "nephio.org/nsn-namespace"

/-- Modelled from the spec: the RIB is an external collaborator, used strictly
through its interface: exact lookup, insert, update, delete, label search and
child navigation, over some state type `σ`.  A write either fails with an error
text, leaving the RIB as it was, or yields the next RIB state.  `UpdateLabel` is
the Route method of the same library. -/
structure RIB (σ : Type) where
  Get : σ → NetPrefix → Option Route
  Add : σ → Route → Except String σ
  Set : σ → Route → Except String σ
  Delete : σ → Route → Except String σ
  GetByLabel : σ → Selector → List Route
  Children : σ → Route → List Route
  UpdateLabel : Route → LabelSet → Route

/-- One observable effect of `Apply`: a RIB write with its outcome (`none` is
success, `some e` the error text), or a call of the watcher. -/
inductive Event where
  | ribAdd (r : Route) (err : Option String)
  | ribSet (r : Route) (err : Option String)
  | ribDelete (r : Route) (err : Option String)
  | handleUpdate (routes : List Route) (code : StatusCode)
deriving DecidableEq

/-- Go `strings.Contains(s, substr)`. -/
def stringsContains (s substr : String) : Bool :=
  s.data.tails.any fun t => substr.data.isPrefixOf t

/-- Go `errors.Wrap(err, msg)`: the message, a colon, the wrapped error text. -/
def errorsWrap (err msg : String) : String := msg ++ ": " ++ err

/-! ## The applicator -/

/-- Outcome of one `Apply`: the returned pair (`.error e` stands for `(nil, err)`,
`.ok a` for `(r.alloc, nil)`), the allocation object after the call, the RIB after
the call and the effects performed, in order. -/
structure ApplyResult (σ : Type) where
  ret : Except String IPAllocation
  alloc : IPAllocation
  rib : σ
  log : List Event

/-- The prefix `Apply` looks up, and stores on the create path (lines 55-59 and
118-121): the address form for a network request that does not create its
prefix, the prefix form otherwise. -/
def lookupKey (alloc : IPAllocation) (pi : PrefixInfo) : NetPrefix :=
  if alloc.GetPrefixKind = PrefixKind.PrefixKindNetwork ∧ alloc.GetCreatePrefix = false then
    pi.GetIPAddressPrefix
  else
    pi.GetIPPrefix

/-- RIB state and error after a write: the next state on success, the old state
and the error text on failure. -/
def written {σ : Type} (s : σ) (r : Except String σ) : σ × Option String :=
  match r with
  | .ok s' => (s', none)
  | .error e => (s, some e)

/-- Test of lines 101-102: the child's owner name or owner namespace label differs
from the allocation's. -/
def ownerDiffers (full : LabelSet) (child : Route) : Bool :=
  child.Labels.index NephioNsnNameKey != full.index NephioNsnNameKey ||
    child.Labels.index NephioNsnNamespaceKey != full.index NephioNsnNamespaceKey

/-- The loop of lines 99-108 over the children: a child whose owner differs is
appended to the batch and then deleted from the RIB; a failed deletion is only
logged.  Returns the RIB, the batch and the delete events. -/
def sweepChildren {σ : Type} (ops : RIB σ) (full : LabelSet) :
    List Route → σ → σ × List Route × List Event
  | [], s => (s, [], [])
  | childRoute :: rest, s =>
    if ownerDiffers full childRoute then
      let w := written s (ops.Delete s childRoute)
      let r := sweepChildren ops full rest w.1
      (r.1, childRoute :: r.2.1, Event.ribDelete childRoute w.2 :: r.2.2)
    else
      sweepChildren ops full rest s

/-- Lines 138-140: the allocation with `Status.AllocatedPrefix` set from the request. -/
def withAllocatedPrefix (alloc : IPAllocation) : IPAllocation :=
  { alloc with Status := { alloc.Status with AllocatedPrefix := alloc.GetPrefixFromNewAlloc } }

/-- Lines 85-90 and 124-128: the error of a RIB write aborts `Apply` unless its
text contains "already exists"; the result is the aborting error, if any. -/
def fatal (err : Option String) : Option String :=
  match err with
  | some e => if stringsContains e "already exists" then none else some e
  | none => none

/-- Embedding of `prefixApplicator.Apply` (lines 48-141).  Logging is left out. -/
def Apply {σ : Type} (ops : RIB σ) (initializing : Bool) (alloc : IPAllocation)
    (pi : PrefixInfo) (rib : σ) : ApplyResult σ :=
  match ops.Get rib (lookupKey alloc pi) with
  | some route =>
    if labelsEquals alloc.GetFullLabels route.Labels then
      { ret := .ok (withAllocatedPrefix alloc), alloc := withAllocatedPrefix alloc,
        rib := rib, log := [] }
    else
      let route := ops.UpdateLabel route alloc.GetFullLabels
      let w := written rib (ops.Set rib route)
      match fatal w.2 with
      | some e =>
        { ret := .error (errorsWrap e "cannot update prefix"), alloc := alloc,
          rib := w.1, log := [Event.ribSet route w.2] }
      | none =>
        if initializing = false ∧ pi.IsAddressPrefix = false ∧ alloc.GetCreatePrefix = true then
          let r := sweepChildren ops alloc.GetFullLabels (ops.Children w.1 route) w.1
          { ret := .ok (withAllocatedPrefix alloc), alloc := withAllocatedPrefix alloc,
            rib := r.1,
            log := Event.ribSet route w.2 ::
              (r.2.2 ++ [Event.handleUpdate r.2.1 StatusCode.Unknown]) }
        else
          { ret := .ok (withAllocatedPrefix alloc), alloc := withAllocatedPrefix alloc,
            rib := w.1, log := [Event.ribSet route w.2] }
  | none =>
    let route := NewRoute (lookupKey alloc pi) alloc.GetFullLabels []
    let w := written rib (ops.Add rib route)
    match fatal w.2 with
    | some e =>
      { ret := .error (errorsWrap e "cannot add prefix"), alloc := alloc,
        rib := w.1, log := [Event.ribAdd route w.2] }
    | none =>
      { ret := .ok (withAllocatedPrefix alloc), alloc := withAllocatedPrefix alloc,
        rib := w.1, log := [Event.ribAdd route w.2] }

/-- Batches handed to the watcher, in call order. -/
def notifications : List Event → List (List Route × StatusCode)
  | [] => []
  | Event.handleUpdate routes code :: rest => (routes, code) :: notifications rest
  | _ :: rest => notifications rest

/-! ## The resolver -/

/-- Embedding of `getter.getGateway` (lines 55-68). -/
def getGateway {σ : Type} (ops : RIB σ) (alloc : IPAllocation) (rib : σ) : String :=
  match alloc.GetGatewayLabelSelector with
  | .error _ => ""
  | .ok gatewaySelector =>
    match ops.GetByLabel rib gatewaySelector with
    | route :: _ => route.Prefix.AddrString
    | [] => ""

/-- Embedding of `getter.GetIPAllocation` (lines 34-53): the allocation after the
call and the returned error (`none` is `nil`). -/
def GetIPAllocation {σ : Type} (ops : RIB σ) (alloc : IPAllocation) (rib : σ) :
    IPAllocation × Option String :=
  match alloc.GetLabelSelector with
  | .error err => (alloc, some err)
  | .ok labelSelector =>
    match ops.GetByLabel rib labelSelector with
    | route :: _ =>
      let alloc1 : IPAllocation :=
        { alloc with Status := { alloc.Status with AllocatedPrefix := route.Prefix.String } }
      if alloc1.GetPrefixKind = PrefixKind.PrefixKindNetwork then
        if alloc1.GetCreatePrefix = false then
          ({ alloc1 with Status := { alloc1.Status with Gateway := getGateway ops alloc1 rib } },
            none)
        else (alloc1, none)
      else (alloc1, none)
    | [] => (alloc, none)

/-! ## An in-memory RIB -/

/-- Injected write failures of the in-memory RIB: for each write, the error text
it fails with on a given Route, if any. -/
structure Faults where
  addErr : Route → Option String
  setErr : Route → Option String
  deleteErr : Route → Option String

/-- No injected failure. -/
def noFaults : Faults :=
  { addErr := fun _ => none, setErr := fun _ => none, deleteErr := fun _ => none }

/-- Exact lookup in a list of Routes: the first Route stored under the prefix. -/
def memGet (s : List Route) (p : NetPrefix) : Option Route :=
  s.find? fun r => decide (r.Prefix = p)

/-- Routes of a list stored under another prefix than `p`. -/
def memErase (s : List Route) (p : NetPrefix) : List Route :=
  s.filter fun r => decide (r.Prefix ≠ p)

/-- Modelled from the spec: an in-memory RIB over a list of Routes, with the
containment order of prefixes (`covers parent child`) and injected failures as
parameters.  `Add` refuses a prefix that is present, `Set` replaces or inserts,
`Delete` refuses a prefix that is absent, `GetByLabel` returns the matching Routes
in list order, `Children` the Routes under a strictly covered prefix, and
`UpdateLabel` replaces the label set. -/
def memRIB (covers : NetPrefix → NetPrefix → Bool) (f : Faults) : RIB (List Route) where
  Get := memGet
  Add := fun s r =>
    match f.addErr r with
    | some e => .error e
    | none =>
      if (memGet s r.Prefix).isSome then
        .error ("route " ++ r.Prefix.String ++ " already exists")
      else .ok (r :: s)
  Set := fun s r =>
    match f.setErr r with
    | some e => .error e
    | none => .ok (r :: memErase s r.Prefix)
  Delete := fun s r =>
    match f.deleteErr r with
    | some e => .error e
    | none =>
      if (memGet s r.Prefix).isSome then .ok (memErase s r.Prefix)
      else .error "route not found"
  GetByLabel := fun s sel => s.filter fun r => sel.Matches r.Labels
  Children := fun s r => s.filter fun c => covers r.Prefix c.Prefix && decide (c.Prefix ≠ r.Prefix)
  UpdateLabel := fun r l => { r with Labels := l }

/-! ## Contract of the RIB

The RIB is external; what the theorems below need from it is stated as separate
properties of the interface, each proved for the in-memory RIB. -/

/-- A Route returned by an exact lookup is stored under the prefix asked for. -/
def GetKeyed {σ : Type} (ops : RIB σ) : Prop :=
  ∀ s p r, ops.Get s p = some r → r.Prefix = p

/-- A successful `Add` stores the Route under its prefix and changes nothing else. -/
def AddStores {σ : Type} (ops : RIB σ) : Prop :=
  ∀ s r s1, ops.Add s r = .ok s1 →
    ∀ p, ops.Get s1 p = if p = r.Prefix then some r else ops.Get s p

/-- A successful `Set` stores the Route under its prefix and changes nothing else. -/
def SetStores {σ : Type} (ops : RIB σ) : Prop :=
  ∀ s r s1, ops.Set s r = .ok s1 →
    ∀ p, ops.Get s1 p = if p = r.Prefix then some r else ops.Get s p

/-- A successful `Delete` empties the Route's prefix and changes nothing else. -/
def DeleteStores {σ : Type} (ops : RIB σ) : Prop :=
  ∀ s r s1, ops.Delete s r = .ok s1 →
    ∀ p, ops.Get s1 p = if p = r.Prefix then none else ops.Get s p

/-- A child of a Route is stored under another prefix than the Route itself. -/
def ChildrenProper {σ : Type} (ops : RIB σ) : Prop :=
  ∀ s r c, c ∈ ops.Children s r → c.Prefix ≠ r.Prefix

/-- `UpdateLabel` replaces the label set and keeps prefix and payload. -/
def UpdateLabelReplaces {σ : Type} (ops : RIB σ) : Prop :=
  ∀ r l, ops.UpdateLabel r l = { r with Labels := l }

/-- The Route the update path writes: the Route found, relabelled (line 83). -/
def updatedRoute {σ : Type} (ops : RIB σ) (alloc : IPAllocation) (route : Route) : Route :=
  ops.UpdateLabel route alloc.GetFullLabels

/-- The RIB right after the `Set` of the update path (line 85). -/
def ribAfterSet {σ : Type} (ops : RIB σ) (alloc : IPAllocation) (rib : σ) (route : Route) : σ :=
  (written rib (ops.Set rib (updatedRoute ops alloc route))).1

/-- The children the sweep ranges over (line 99). -/
def sweptChildren {σ : Type} (ops : RIB σ) (alloc : IPAllocation) (rib : σ)
    (route : Route) : List Route :=
  ops.Children (ribAfterSet ops alloc rib route) (updatedRoute ops alloc route)

/-! ## A worked scenario

A network `10.0.0.0/24` owned by `o1` with two address children, also owned by
`o1`, and a request that hands the network to owner `o2`. -/

/-- The network prefix of the scenario. -/
def exNet : NetPrefix := { addr := "10.0.0.0", bits := 24 }

/-- First address under the network. -/
def exAddr1 : NetPrefix := { addr := "10.0.0.1", bits := 32 }

/-- Second address under the network. -/
def exAddr2 : NetPrefix := { addr := "10.0.0.2", bits := 32 }

/-- Address form of the network prefix. -/
def exNetAddr : NetPrefix := { addr := "10.0.0.0", bits := 32 }

/-- Containment of the scenario: the network covers its two addresses. -/
def exCovers (parent child : NetPrefix) : Bool :=
  decide (parent = exNet) && (decide (child = exAddr1) || decide (child = exAddr2))

/-- Labels naming an owner in the namespace `default`. -/
def exOwner (name : String) : LabelSet :=
  [(NephioNsnNameKey, name), (NephioNsnNamespaceKey, "default")]

/-- The network Route, owned by `o1`. -/
def exNetRoute : Route := { Prefix := exNet, Labels := exOwner "o1", Data := [] }

/-- The first child Route, owned by `o1`. -/
def exChild1 : Route := { Prefix := exAddr1, Labels := exOwner "o1", Data := [] }

/-- The second child Route, owned by `o1`. -/
def exChild2 : Route := { Prefix := exAddr2, Labels := exOwner "o1", Data := [] }

/-- The RIB of the scenario. -/
def exRib : List Route := [exNetRoute, exChild1, exChild2]

/-- The request: the network, create-prefix true, owner `o2`. -/
def exAlloc : IPAllocation :=
  { GetPrefixKind := PrefixKind.PrefixKindNetwork
    GetCreatePrefix := true
    GetFullLabels := exOwner "o2"
    GetPrefixFromNewAlloc := "10.0.0.0/24"
    GetLabelSelector := .ok { matchLabels := [(NephioNsnNameKey, "o1")] }
    GetGatewayLabelSelector := .ok { matchLabels := [("nephio.org/gateway", "true")] }
    Status := { AllocatedPrefix := "", Gateway := "" } }

/-- The parsed prefix of the request. -/
def exPi : PrefixInfo :=
  { GetIPPrefix := exNet, GetIPAddressPrefix := exNetAddr, IsAddressPrefix := false }

/-- A RIB whose `Set` fails with an error that is not "already exists". -/
def setBroken : Faults :=
  { addErr := fun _ => none, setErr := fun _ => some "rib unavailable",
    deleteErr := fun _ => none }

/-- A RIB whose `Add` fails with an error that is not "already exists". -/
def addBroken : Faults :=
  { addErr := fun _ => some "rib unavailable", setErr := fun _ => none,
    deleteErr := fun _ => none }

/-- A RIB whose `Set` always fails with "route already exists". -/
def setRefuses : Faults :=
  { addErr := fun _ => none, setErr := fun _ => some "route already exists",
    deleteErr := fun _ => none }

/-- A RIB that fails to delete the first child. -/
def deleteBroken : Faults :=
  { addErr := fun _ => none, setErr := fun _ => none,
    deleteErr := fun r => if r.Prefix = exAddr1 then some "route busy" else none }

/-- A request whose selector matches no Route of the scenario. -/
def exAllocNoMatch : IPAllocation :=
  { exAlloc with GetLabelSelector := .ok { matchLabels := [(NephioNsnNameKey, "nobody")] } }

/-- A gateway Route of the scenario: the first address, labelled as gateway. -/
def exGateway : Route :=
  { Prefix := exAddr1, Labels := [("nephio.org/gateway", "true")], Data := [] }

/-- The RIB of the scenario with the gateway Route in front of a second one. -/
def exRibGw : List Route :=
  [exNetRoute, exGateway,
    { Prefix := exAddr2, Labels := [("nephio.org/gateway", "true")], Data := [] }]

/-- A network request that does not create its prefix, with a stale gateway in
its status. -/
def exAllocGw : IPAllocation :=
  { exAlloc with
    GetCreatePrefix := false
    Status := { AllocatedPrefix := "", Gateway := "192.0.2.1" } }

/-- A network request whose gateway selector cannot be built. -/
def exAllocBadGw : IPAllocation :=
  { exAllocGw with GetGatewayLabelSelector := .error "invalid gateway selector" }

/-- A request whose primary selector cannot be built. -/
def exAllocBadSel : IPAllocation :=
  { exAllocGw with GetLabelSelector := .error "invalid selector" }

/-- The network Route already owned by `o2`, with one more label. -/
def exNetRouteOwned : Route :=
  { Prefix := exNet, Labels := exOwner "o2" ++ [("purpose", "lab")], Data := [] }

/-- The RIB of the scenario with the network already owned by `o2`; the children
still carry owner `o1`. -/
def exRibOwned : List Route := [exNetRouteOwned, exChild1, exChild2]

/-! ## The backend registry -/

/-- Modelled from the spec: the connection handle of package `alloc`
(`alloc.Client`) is declared outside the source tree.  It is seen through the two
methods the registry calls: `Get`, the allocation client of the connection (an
opaque identity), and `Delete`, which tears the connection down and returns an
error text or nothing. -/
structure AllocClient where
  Get : Nat
  Delete : Option String
deriving DecidableEq

/-- Modelled from the spec: target service coordinates of a registry entry
(`r.svcInfo`), declared outside the source tree. -/
structure Service where
  Address : String
  Port : Int
deriving DecidableEq

/-- Argument of `alloc.New` (`alloc.Config`). -/
structure Config where
  Address : String
  Insecure : Bool
deriving DecidableEq

/-- Modelled from the spec: the registry entry (`proxycache`), declared outside
the source tree: the cached connection, present or absent, and the service
coordinates.  The lock and the logger are left out. -/
structure proxycache where
  allocClient : Option AllocClient
  svcInfo : Service
deriving DecidableEq

/-- Embedding of `proxycache.getClient` (lines 11-18): the registry after the call
and the returned pair (`.error e` stands for `(nil, err)`). -/
def getClient (r : proxycache) : proxycache × Except String Nat :=
  match r.allocClient with
  | none => (r, .error "ipam server unreachable")
  | some ac => (r, .ok ac.Get)

/-- Embedding of `proxycache.deleteClient` (lines 20-31): the registry after the
call and the returned error (`none` is `nil`). -/
def deleteClient (r : proxycache) : proxycache × Option String :=
  match r.allocClient with
  | some ac =>
    match ac.Delete with
    | some err => (r, some err)
    | none => ({ r with allocClient := none }, none)
  | none => ({ r with allocClient := none }, none)

/-- The configuration `createClient` dials (lines 36-39): address, a colon, the
port in decimal. -/
def clientConfig (r : proxycache) : Config :=
  { Address := r.svcInfo.Address ++ ":" ++ toString r.svcInfo.Port, Insecure := true }

/-- Embedding of `proxycache.createClient` (lines 33-47).  `allocNew` stands for
`alloc.New` at the time of the call: the connection it establishes for a
configuration, or the error it fails with. -/
def createClient (allocNew : Config → Except String AllocClient) (r : proxycache) :
    proxycache × Option String :=
  match allocNew (clientConfig r) with
  | .error err => ({ r with allocClient := none }, some err)
  | .ok ac => ({ r with allocClient := some ac }, none)

/-- A connection of the registry examples. -/
def exConn : AllocClient := { Get := 1, Delete := none }

/-- Another connection, the one a fresh dial yields. -/
def exConnNew : AllocClient := { Get := 2, Delete := none }

/-- A registry entry holding `exConn`. -/
def exCache : proxycache :=
  { allocClient := some exConn, svcInfo := { Address := "ipam.local", Port := 9999 } }

/-- A registry entry without connection. -/
def exCacheEmpty : proxycache :=
  { allocClient := none, svcInfo := { Address := "ipam.local", Port := 9999 } }

/-- A backend that refuses the connection. -/
def dialRefused : Config → Except String AllocClient := fun _ => .error "connection refused"

/-- A backend that accepts and yields `exConnNew`. -/
def dialAccepted : Config → Except String AllocClient := fun _ => .ok exConnNew

/-! ## The request router -/

/-- Handler of one resource group (`AlloHandler`), an interface of four methods;
only its identity matters for registration. -/
structure AlloHandler where
  name : String
deriving DecidableEq

/-- The handler table of the sub-server (`subServer`): group name to handler.
The lock and the logger are left out. -/
structure subServer where
  h : String → Option AlloHandler

/-- Embedding of the method `subServer.WithRoutes` (lines 67-74): `ahs` lists the
entries of the Go map in range order; each is assigned into the table. -/
def subServer.WithRoutes (r : subServer) (ahs : List (String × AlloHandler)) : subServer :=
  ahs.foldl
    (fun acc entry =>
      { h := fun group => if group = entry.1 then some entry.2 else acc.h group })
    r

/-- Option of the constructor (`type Option func(SubServer)`). -/
abbrev ServerOption := subServer → subServer

/-- Embedding of the option `WithRoutes` (lines 27-31). -/
def WithRoutes (ahs : List (String × AlloHandler)) : ServerOption :=
  fun s => s.WithRoutes ahs

/-- Embedding of `New` (lines 50-59): an empty table, then every option in order. -/
def New (opts : List ServerOption) : subServer :=
  opts.foldl (fun r o => o r) { h := fun _ => none }

/-! ## Lemmas -/

theorem labelsEquals_refl (a : LabelSet) : labelsEquals a a = true := by
  simp [labelsEquals]

theorem fatal_none_iff (err : Option String) :
    fatal err = none ↔ ∀ e, err = some e → stringsContains e "already exists" = true := by
  cases err with
  | none => simp [fatal]
  | some e =>
    by_cases h : stringsContains e "already exists" = true <;> simp [fatal, h]

theorem fatal_some (err : Option String) (e : String) (h : fatal err = some e) :
    err = some e ∧ stringsContains e "already exists" = false := by
  cases err with
  | none => simp [fatal] at h
  | some e0 =>
    by_cases hc : stringsContains e0 "already exists" = true
    · simp [fatal, hc] at h
    · simp [fatal, hc] at h
      subst h
      simp [hc]

theorem notifications_append (a b : List Event) :
    notifications (a ++ b) = notifications a ++ notifications b := by
  induction a with
  | nil => rfl
  | cons e rest ih => cases e <;> simp [notifications, ih]

/-- The batch of the sweep is the list of children whose owner differs, in child
order, whatever the deletions returned. -/
theorem sweepChildren_batch {σ : Type} (ops : RIB σ) (full : LabelSet) (cs : List Route) (s : σ) :
    (sweepChildren ops full cs s).2.1 = cs.filter (ownerDiffers full) := by
  induction cs generalizing s with
  | nil => rfl
  | cons c rest ih =>
    by_cases h : ownerDiffers full c = true
    · simp [sweepChildren, h, ih]
    · simp [sweepChildren, h, ih]

/-- The sweep logs deletions only: one per child whose owner differs. -/
theorem sweepChildren_log {σ : Type} (ops : RIB σ) (full : LabelSet) (cs : List Route) (s : σ)
    (ev : Event) (hev : ev ∈ (sweepChildren ops full cs s).2.2) :
    ∃ c err, ev = Event.ribDelete c err ∧ c ∈ cs ∧ ownerDiffers full c = true := by
  induction cs generalizing s with
  | nil => simp [sweepChildren] at hev
  | cons c rest ih =>
    by_cases h : ownerDiffers full c = true
    · simp only [sweepChildren, h, if_true, List.mem_cons] at hev
      rcases hev with hev | hev
      · exact ⟨c, _, hev, by simp, h⟩
      · obtain ⟨c1, err, h1, h2, h3⟩ := ih _ hev
        exact ⟨c1, err, h1, by simp [h2], h3⟩
    · simp only [sweepChildren, h] at hev
      obtain ⟨c1, err, h1, h2, h3⟩ := ih _ hev
      exact ⟨c1, err, h1, by simp [h2], h3⟩

theorem sweepChildren_notifications {σ : Type} (ops : RIB σ) (full : LabelSet)
    (cs : List Route) (s : σ) : notifications (sweepChildren ops full cs s).2.2 = [] := by
  induction cs generalizing s with
  | nil => rfl
  | cons c rest ih =>
    by_cases h : ownerDiffers full c = true
    · simp [sweepChildren, h, notifications, ih]
    · simp [sweepChildren, h, ih]

/-- One write leaves every prefix other than the written one as it was. -/
theorem written_delete_get {σ : Type} (ops : RIB σ) (hdel : DeleteStores ops) (s : σ) (c : Route)
    (p : NetPrefix) (hp : p ≠ c.Prefix) :
    ops.Get (written s (ops.Delete s c)).1 p = ops.Get s p := by
  cases hd : ops.Delete s c with
  | error e => simp [written]
  | ok s1 => simp [written, hdel s c s1 hd p, hp]

/-- The sweep leaves a prefix alone when no child whose owner differs is stored
under it. -/
theorem sweepChildren_get_other {σ : Type} (ops : RIB σ) (hdel : DeleteStores ops)
    (full : LabelSet) (p : NetPrefix) (cs : List Route) (s : σ)
    (hp : ∀ c ∈ cs, ownerDiffers full c = true → c.Prefix ≠ p) :
    ops.Get (sweepChildren ops full cs s).1 p = ops.Get s p := by
  induction cs generalizing s with
  | nil => rfl
  | cons c rest ih =>
    have hrest : ∀ d ∈ rest, ownerDiffers full d = true → d.Prefix ≠ p :=
      fun d hd => hp d (List.mem_cons_of_mem _ hd)
    by_cases h : ownerDiffers full c = true
    · simp only [sweepChildren, h, if_true]
      rw [ih _ hrest]
      exact written_delete_get ops hdel s c p (fun hpc => hp c (by simp) h hpc.symm)
    · simp only [sweepChildren, h]
      exact ih _ hrest

/-- The sweep never fills a prefix that is empty. -/
theorem sweepChildren_get_none {σ : Type} (ops : RIB σ) (hdel : DeleteStores ops)
    (full : LabelSet) (p : NetPrefix) (cs : List Route) (s : σ) (hs : ops.Get s p = none) :
    ops.Get (sweepChildren ops full cs s).1 p = none := by
  induction cs generalizing s with
  | nil => exact hs
  | cons c rest ih =>
    by_cases h : ownerDiffers full c = true
    · simp only [sweepChildren, h, if_true]
      apply ih
      cases hd : ops.Delete s c with
      | error e => simpa [written] using hs
      | ok s1 =>
        simp only [written]
        rw [hdel s c s1 hd p]
        split
        · rfl
        · exact hs
    · simp only [sweepChildren, h]
      exact ih _ hs

/-- When no deletion fails, every child whose owner differs is gone after the sweep. -/
theorem sweepChildren_removed {σ : Type} (ops : RIB σ) (hdel : DeleteStores ops)
    (full : LabelSet) (cs : List Route) (s : σ)
    (hok : ∀ c e, Event.ribDelete c (some e) ∉ (sweepChildren ops full cs s).2.2)
    (c : Route) (hc : c ∈ cs) (hdiff : ownerDiffers full c = true) :
    ops.Get (sweepChildren ops full cs s).1 c.Prefix = none := by
  induction cs generalizing s with
  | nil => simp at hc
  | cons c0 rest ih =>
    by_cases h : ownerDiffers full c0 = true
    · simp only [sweepChildren, h, if_true] at hok ⊢
      cases hd : ops.Delete s c0 with
      | error e =>
        exact absurd (by simp [hd, written]) (hok c0 e)
      | ok s1 =>
        simp only [hd, written] at hok ⊢
        rcases List.mem_cons.1 hc with hc | hc
        · subst hc
          apply sweepChildren_get_none ops hdel
          simp [hdel s c s1 hd]
        · exact ih s1 (fun d e hmem => hok d e (List.mem_cons_of_mem _ hmem)) hc
    · simp only [sweepChildren, h] at hok ⊢
      rcases List.mem_cons.1 hc with hc | hc
      · subst hc
        exact absurd hdiff h
      · exact ih s hok hc

/-- A child whose deletion failed is left as it was by the whole sweep, provided
the children are stored under pairwise different prefixes. -/
theorem sweepChildren_failed_kept {σ : Type} (ops : RIB σ) (hdel : DeleteStores ops)
    (full : LabelSet) (cs : List Route) (s : σ)
    (hnd : (cs.map fun c => c.Prefix).Nodup) (c : Route) (e : String)
    (hfail : Event.ribDelete c (some e) ∈ (sweepChildren ops full cs s).2.2) :
    ops.Get (sweepChildren ops full cs s).1 c.Prefix = ops.Get s c.Prefix := by
  induction cs generalizing s with
  | nil => simp [sweepChildren] at hfail
  | cons c0 rest ih =>
    rw [List.map_cons, List.nodup_cons] at hnd
    obtain ⟨hc0, hrest⟩ := hnd
    have hother : ∀ d ∈ rest, d.Prefix ≠ c0.Prefix := by
      intro d hd heq
      exact hc0 (heq ▸ List.mem_map_of_mem (fun c => c.Prefix) hd)
    by_cases h : ownerDiffers full c0 = true
    · simp only [sweepChildren, h, if_true, List.mem_cons] at hfail ⊢
      rcases hfail with hfail | hfail
      · injection hfail with hc hw
        subst hc
        have hs1 : (written s (ops.Delete s c)).1 = s := by
          cases hd : ops.Delete s c with
          | error e1 => rfl
          | ok s1 => simp [hd, written] at hw
        rw [hs1]
        apply sweepChildren_get_other ops hdel
        intro d hd _
        exact hother d hd
      · rw [ih _ hrest hfail]
        obtain ⟨c1, err, h1, h2, _⟩ := sweepChildren_log ops full rest _ _ hfail
        injection h1 with h1 _
        subst h1
        exact written_delete_get ops hdel s c0 c.Prefix (hother c h2)
    · simp only [sweepChildren, h] at hfail ⊢
      exact ih _ hrest hfail

/-- Every child whose owner differs has its deletion in the log of the sweep. -/
theorem sweepChildren_log_mem {σ : Type} (ops : RIB σ) (full : LabelSet) (cs : List Route)
    (s : σ) (c : Route) (hc : c ∈ cs) (hd : ownerDiffers full c = true) :
    ∃ err, Event.ribDelete c err ∈ (sweepChildren ops full cs s).2.2 := by
  induction cs generalizing s with
  | nil => simp at hc
  | cons c0 rest ih =>
    by_cases h : ownerDiffers full c0 = true
    · simp only [sweepChildren, h, if_true, List.mem_cons]
      rcases List.mem_cons.1 hc with hc | hc
      · subst hc
        exact ⟨_, Or.inl rfl⟩
      · obtain ⟨err, hmem⟩ := ih (written s (ops.Delete s c0)).1 hc
        exact ⟨err, Or.inr hmem⟩
    · simp only [sweepChildren, h]
      rcases List.mem_cons.1 hc with hc | hc
      · subst hc
        exact absurd hd h
      · exact ih s hc

/-- A sweep over children that all carry the allocation's owner does nothing. -/
theorem sweepChildren_idle {σ : Type} (ops : RIB σ) (full : LabelSet) (cs : List Route) (s : σ)
    (hall : ∀ c ∈ cs, ownerDiffers full c = false) :
    sweepChildren ops full cs s = (s, [], []) := by
  induction cs generalizing s with
  | nil => rfl
  | cons c0 rest ih =>
    have h0 : ownerDiffers full c0 = false := hall c0 (by simp)
    simp only [sweepChildren, h0]
    exact ih s (fun c hc => hall c (List.mem_cons_of_mem _ hc))

/-! ### The in-memory RIB honours the contract -/

theorem memGet_cons (r : Route) (s : List Route) (p : NetPrefix) :
    memGet (r :: s) p = if p = r.Prefix then some r else memGet s p := by
  by_cases h : r.Prefix = p
  · simp [memGet, List.find?_cons, h]
  · have h1 : ¬ p = r.Prefix := fun h2 => h h2.symm
    simp [memGet, List.find?_cons, h, h1]

theorem memErase_cons (r : Route) (s : List Route) (p : NetPrefix) :
    memErase (r :: s) p = if r.Prefix = p then memErase s p else r :: memErase s p := by
  by_cases h : r.Prefix = p <;> simp [memErase, List.filter_cons, h]

theorem memGet_erase_self (s : List Route) (p : NetPrefix) : memGet (memErase s p) p = none := by
  induction s with
  | nil => rfl
  | cons r rest ih =>
    rw [memErase_cons]
    by_cases h : r.Prefix = p
    · rw [if_pos h]
      exact ih
    · have h1 : ¬ p = r.Prefix := fun h2 => h h2.symm
      rw [if_neg h, memGet_cons, if_neg h1]
      exact ih

theorem memGet_erase_other (s : List Route) (p q : NetPrefix) (hpq : p ≠ q) :
    memGet (memErase s q) p = memGet s p := by
  induction s with
  | nil => rfl
  | cons r rest ih =>
    rw [memErase_cons, memGet_cons]
    by_cases h : r.Prefix = q
    · have h1 : ¬ p = r.Prefix := fun h2 => hpq (h2.trans h)
      rw [if_pos h, if_neg h1]
      exact ih
    · rw [if_neg h, memGet_cons, ih]

theorem memRIB_getKeyed (covers : NetPrefix → NetPrefix → Bool) (f : Faults) :
    GetKeyed (memRIB covers f) := by
  intro s p r h
  have h1 := List.find?_some h
  simpa using h1

theorem memRIB_addStores (covers : NetPrefix → NetPrefix → Bool) (f : Faults) :
    AddStores (memRIB covers f) := by
  intro s r s1 h p
  simp only [memRIB] at h ⊢
  cases hf : f.addErr r with
  | some e => simp [hf] at h
  | none =>
    simp only [hf] at h
    split at h
    · simp at h
    · injection h with h
      subst h
      exact memGet_cons r s p

theorem memRIB_setStores (covers : NetPrefix → NetPrefix → Bool) (f : Faults) :
    SetStores (memRIB covers f) := by
  intro s r s1 h p
  simp only [memRIB] at h ⊢
  cases hf : f.setErr r with
  | some e => simp [hf] at h
  | none =>
    simp only [hf] at h
    injection h with h
    subst h
    rw [memGet_cons]
    by_cases hp : p = r.Prefix
    · simp [hp]
    · simp [hp, memGet_erase_other s p r.Prefix hp]

theorem memRIB_deleteStores (covers : NetPrefix → NetPrefix → Bool) (f : Faults) :
    DeleteStores (memRIB covers f) := by
  intro s r s1 h p
  simp only [memRIB] at h ⊢
  cases hf : f.deleteErr r with
  | some e => simp [hf] at h
  | none =>
    simp only [hf] at h
    split at h
    · injection h with h
      subst h
      by_cases hp : p = r.Prefix
      · simp [hp, memGet_erase_self]
      · simp [hp, memGet_erase_other s p r.Prefix hp]
    · simp at h

theorem memRIB_childrenProper (covers : NetPrefix → NetPrefix → Bool) (f : Faults) :
    ChildrenProper (memRIB covers f) := by
  intro s r c h
  simp only [memRIB, List.mem_filter, Bool.and_eq_true, decide_eq_true_eq] at h
  exact h.2.2

theorem memRIB_updateLabelReplaces (covers : NetPrefix → NetPrefix → Bool) (f : Faults) :
    UpdateLabelReplaces (memRIB covers f) := by
  intro r l
  rfl

/-! ### Shape of `Apply` on each path -/

theorem Apply_absent {σ : Type} (ops : RIB σ) (initializing : Bool) (alloc : IPAllocation)
    (pi : PrefixInfo) (s : σ) (habsent : ops.Get s (lookupKey alloc pi) = none) :
    Apply ops initializing alloc pi s =
      match fatal (written s (ops.Add s
          (NewRoute (lookupKey alloc pi) alloc.GetFullLabels []))).2 with
      | some e =>
        { ret := .error (errorsWrap e "cannot add prefix"), alloc := alloc,
          rib := (written s (ops.Add s
            (NewRoute (lookupKey alloc pi) alloc.GetFullLabels []))).1,
          log := [Event.ribAdd (NewRoute (lookupKey alloc pi) alloc.GetFullLabels [])
            (written s (ops.Add s
              (NewRoute (lookupKey alloc pi) alloc.GetFullLabels []))).2] }
      | none =>
        { ret := .ok (withAllocatedPrefix alloc), alloc := withAllocatedPrefix alloc,
          rib := (written s (ops.Add s
            (NewRoute (lookupKey alloc pi) alloc.GetFullLabels []))).1,
          log := [Event.ribAdd (NewRoute (lookupKey alloc pi) alloc.GetFullLabels [])
            (written s (ops.Add s
              (NewRoute (lookupKey alloc pi) alloc.GetFullLabels []))).2] } := by
  simp only [Apply, habsent]

theorem Apply_same {σ : Type} (ops : RIB σ) (initializing : Bool) (alloc : IPAllocation)
    (pi : PrefixInfo) (s : σ) (route : Route)
    (hfound : ops.Get s (lookupKey alloc pi) = some route)
    (hsame : labelsEquals alloc.GetFullLabels route.Labels = true) :
    Apply ops initializing alloc pi s =
      { ret := .ok (withAllocatedPrefix alloc), alloc := withAllocatedPrefix alloc,
        rib := s, log := [] } := by
  simp only [Apply, hfound, hsame, if_true]

theorem Apply_differ {σ : Type} (ops : RIB σ) (initializing : Bool) (alloc : IPAllocation)
    (pi : PrefixInfo) (s : σ) (route : Route)
    (hfound : ops.Get s (lookupKey alloc pi) = some route)
    (hdiff : labelsEquals alloc.GetFullLabels route.Labels = false) :
    Apply ops initializing alloc pi s =
      match fatal (written s (ops.Set s (updatedRoute ops alloc route))).2 with
      | some e =>
        { ret := .error (errorsWrap e "cannot update prefix"), alloc := alloc,
          rib := ribAfterSet ops alloc s route,
          log := [Event.ribSet (updatedRoute ops alloc route)
            (written s (ops.Set s (updatedRoute ops alloc route))).2] }
      | none =>
        if initializing = false ∧ pi.IsAddressPrefix = false ∧ alloc.GetCreatePrefix = true then
          { ret := .ok (withAllocatedPrefix alloc), alloc := withAllocatedPrefix alloc,
            rib := (sweepChildren ops alloc.GetFullLabels (sweptChildren ops alloc s route)
              (ribAfterSet ops alloc s route)).1,
            log := Event.ribSet (updatedRoute ops alloc route)
              (written s (ops.Set s (updatedRoute ops alloc route))).2 ::
              ((sweepChildren ops alloc.GetFullLabels (sweptChildren ops alloc s route)
                (ribAfterSet ops alloc s route)).2.2 ++
              [Event.handleUpdate (sweepChildren ops alloc.GetFullLabels
                (sweptChildren ops alloc s route) (ribAfterSet ops alloc s route)).2.1
                StatusCode.Unknown]) }
        else
          { ret := .ok (withAllocatedPrefix alloc), alloc := withAllocatedPrefix alloc,
            rib := ribAfterSet ops alloc s route,
            log := [Event.ribSet (updatedRoute ops alloc route)
              (written s (ops.Set s (updatedRoute ops alloc route))).2] } := by
  simp only [Apply, hfound, hdiff, sweptChildren, ribAfterSet, updatedRoute]
  rfl

/-- The relabelled Route is stored under the lookup key. -/
theorem updatedRoute_key {σ : Type} (ops : RIB σ) (hk : GetKeyed ops)
    (hul : UpdateLabelReplaces ops) (alloc : IPAllocation) (pi : PrefixInfo) (s : σ)
    (route : Route) (hfound : ops.Get s (lookupKey alloc pi) = some route) :
    (updatedRoute ops alloc route).Prefix = lookupKey alloc pi := by
  rw [updatedRoute, hul]
  exact hk s _ route hfound

/-- The RIB after the `Set` of the update path, prefix by prefix. -/
theorem ribAfterSet_get {σ : Type} (ops : RIB σ) (hset : SetStores ops) (alloc : IPAllocation)
    (s : σ) (route : Route) (p : NetPrefix) :
    ops.Get (ribAfterSet ops alloc s route) p =
      if p = (updatedRoute ops alloc route).Prefix ∧
          (written s (ops.Set s (updatedRoute ops alloc route))).2 = none then
        some (updatedRoute ops alloc route)
      else ops.Get s p := by
  unfold ribAfterSet
  cases hs : ops.Set s (updatedRoute ops alloc route) with
  | error e => simp [written]
  | ok s1 =>
    simp only [written, and_true]
    exact hset s _ s1 hs p

/-- The sweep of the update path leaves the lookup key alone. -/
theorem sweep_keeps_key {σ : Type} (ops : RIB σ) (hdel : DeleteStores ops)
    (hch : ChildrenProper ops) (alloc : IPAllocation) (s : σ) (route : Route) :
    ops.Get (sweepChildren ops alloc.GetFullLabels (sweptChildren ops alloc s route)
        (ribAfterSet ops alloc s route)).1 (updatedRoute ops alloc route).Prefix =
      ops.Get (ribAfterSet ops alloc s route) (updatedRoute ops alloc route).Prefix := by
  apply sweepChildren_get_other ops hdel
  intro c hc _
  exact hch _ _ c hc

/-- The log of `Apply` on the create path is the one `Add`, with its outcome. -/
theorem Apply_absent_log {σ : Type} (ops : RIB σ) (initializing : Bool) (alloc : IPAllocation)
    (pi : PrefixInfo) (s : σ) (habsent : ops.Get s (lookupKey alloc pi) = none) :
    (Apply ops initializing alloc pi s).log =
      [Event.ribAdd (NewRoute (lookupKey alloc pi) alloc.GetFullLabels [])
        (written s (ops.Add s (NewRoute (lookupKey alloc pi) alloc.GetFullLabels []))).2] := by
  rw [Apply_absent ops initializing alloc pi s habsent]
  cases fatal (written s (ops.Add s
      (NewRoute (lookupKey alloc pi) alloc.GetFullLabels []))).2 <;> rfl

/-- The log of `Apply` on the update path with differing labels starts with the
`Set` of the relabelled Route, with its outcome. -/
theorem Apply_differ_log {σ : Type} (ops : RIB σ) (initializing : Bool) (alloc : IPAllocation)
    (pi : PrefixInfo) (s : σ) (route : Route)
    (hfound : ops.Get s (lookupKey alloc pi) = some route)
    (hdiff : labelsEquals alloc.GetFullLabels route.Labels = false) :
    Event.ribSet (updatedRoute ops alloc route)
        (written s (ops.Set s (updatedRoute ops alloc route))).2 ∈
      (Apply ops initializing alloc pi s).log := by
  rw [Apply_differ ops initializing alloc pi s route hfound hdiff]
  cases fatal (written s (ops.Set s (updatedRoute ops alloc route))).2 with
  | some e => exact List.mem_cons_self _ _
  | none =>
    by_cases hc : initializing = false ∧ pi.IsAddressPrefix = false ∧
        alloc.GetCreatePrefix = true
    · simp only [hc, and_self, if_true]
      exact List.mem_cons_self _ _
    · simp only [hc, if_false]
      exact List.mem_cons_self _ _

/-- After an `Apply` none of whose `Add` or `Set` failed, over a RIB whose
successful writes take effect, the lookup key holds a Route whose labels equal
the allocation's full labels, and the allocation carries the allocated prefix. -/
theorem apply_ok_stored {σ : Type} (ops : RIB σ) (hk : GetKeyed ops) (hadd : AddStores ops)
    (hset : SetStores ops) (hdel : DeleteStores ops) (hch : ChildrenProper ops)
    (hul : UpdateLabelReplaces ops)
    (initializing : Bool) (alloc : IPAllocation) (pi : PrefixInfo) (s : σ)
    (hclean : ∀ r e, Event.ribAdd r (some e) ∉ (Apply ops initializing alloc pi s).log ∧
      Event.ribSet r (some e) ∉ (Apply ops initializing alloc pi s).log) :
    (∃ r1, ops.Get (Apply ops initializing alloc pi s).rib (lookupKey alloc pi) = some r1 ∧
      labelsEquals alloc.GetFullLabels r1.Labels = true) ∧
    (Apply ops initializing alloc pi s).alloc = withAllocatedPrefix alloc := by
  cases hg : ops.Get s (lookupKey alloc pi) with
  | none =>
    have hlog := Apply_absent_log ops initializing alloc pi s hg
    cases ha : ops.Add s (NewRoute (lookupKey alloc pi) alloc.GetFullLabels []) with
    | error e =>
      exfalso
      apply (hclean (NewRoute (lookupKey alloc pi) alloc.GetFullLabels []) e).1
      rw [hlog, ha]
      exact List.mem_cons_self _ _
    | ok s1 =>
      rw [Apply_absent ops initializing alloc pi s hg]
      simp only [ha, written, fatal]
      refine ⟨⟨NewRoute (lookupKey alloc pi) alloc.GetFullLabels [], ?_, ?_⟩, trivial⟩
      · rw [hadd s _ s1 ha]
        simp [NewRoute]
      · exact labelsEquals_refl _
  | some route =>
    have hkey := updatedRoute_key ops hk hul alloc pi s route hg
    have hupd : updatedRoute ops alloc route = { route with Labels := alloc.GetFullLabels } := by
      rw [updatedRoute, hul]
    by_cases hsame : labelsEquals alloc.GetFullLabels route.Labels = true
    · rw [Apply_same ops initializing alloc pi s route hg hsame]
      exact ⟨⟨route, hg, hsame⟩, rfl⟩
    · have hdiff : labelsEquals alloc.GetFullLabels route.Labels = false := by
        simpa using hsame
      have hlog := Apply_differ_log ops initializing alloc pi s route hg hdiff
      have hafter := ribAfterSet_get ops hset alloc s route (lookupKey alloc pi)
      have hsweep := sweep_keeps_key ops hdel hch alloc s route
      rw [hkey] at hsweep
      cases hs : ops.Set s (updatedRoute ops alloc route) with
      | error e =>
        exfalso
        apply (hclean (updatedRoute ops alloc route) e).2
        rw [hs] at hlog
        exact hlog
      | ok s1 =>
        rw [Apply_differ ops initializing alloc pi s route hg hdiff]
        have hw : (written s (ops.Set s (updatedRoute ops alloc route))).2 = none := by
          simp [hs, written]
        have hstored : ops.Get (ribAfterSet ops alloc s route) (lookupKey alloc pi) =
            some (updatedRoute ops alloc route) := by
          rw [hafter]
          simp [hkey, hw]
        have hlab : labelsEquals alloc.GetFullLabels (updatedRoute ops alloc route).Labels
            = true := by
          rw [hupd]
          exact labelsEquals_refl _
        simp only [hw, fatal]
        by_cases hcas : initializing = false ∧ pi.IsAddressPrefix = false ∧
            alloc.GetCreatePrefix = true
        · simp only [hcas, and_self, if_true]
          exact ⟨⟨_, hsweep.trans hstored, hlab⟩, trivial⟩
        · simp only [hcas, if_false]
          exact ⟨⟨_, hstored, hlab⟩, trivial⟩

/-- Shape of `Apply` when the sweep runs. -/
theorem shape_sweep {σ : Type} (ops : RIB σ) (alloc : IPAllocation) (pi : PrefixInfo) (s : σ)
    (route : Route) (hfound : ops.Get s (lookupKey alloc pi) = some route)
    (hdiff : labelsEquals alloc.GetFullLabels route.Labels = false)
    (hupd : fatal (written s (ops.Set s (updatedRoute ops alloc route))).2 = none)
    (haddr : pi.IsAddressPrefix = false) (hcreate : alloc.GetCreatePrefix = true) :
    Apply ops false alloc pi s =
      { ret := .ok (withAllocatedPrefix alloc), alloc := withAllocatedPrefix alloc,
        rib := (sweepChildren ops alloc.GetFullLabels (sweptChildren ops alloc s route)
          (ribAfterSet ops alloc s route)).1,
        log := Event.ribSet (updatedRoute ops alloc route)
          (written s (ops.Set s (updatedRoute ops alloc route))).2 ::
          ((sweepChildren ops alloc.GetFullLabels (sweptChildren ops alloc s route)
            (ribAfterSet ops alloc s route)).2.2 ++
          [Event.handleUpdate ((sweptChildren ops alloc s route).filter
            (ownerDiffers alloc.GetFullLabels)) StatusCode.Unknown]) } := by
  rw [Apply_differ ops false alloc pi s route hfound hdiff, hupd]
  simp only [haddr, hcreate, and_self, if_true, sweepChildren_batch]

/-- Shape of `Apply` on the update path when the guard of the sweep fails. -/
theorem shape_guard_fails {σ : Type} (ops : RIB σ) (initializing : Bool) (alloc : IPAllocation)
    (pi : PrefixInfo) (s : σ) (route : Route)
    (hfound : ops.Get s (lookupKey alloc pi) = some route)
    (hdiff : labelsEquals alloc.GetFullLabels route.Labels = false)
    (hguard : initializing = true ∨ pi.IsAddressPrefix = true ∨ alloc.GetCreatePrefix = false) :
    (Apply ops initializing alloc pi s).rib = ribAfterSet ops alloc s route ∧
    (Apply ops initializing alloc pi s).log =
      [Event.ribSet (updatedRoute ops alloc route)
        (written s (ops.Set s (updatedRoute ops alloc route))).2] := by
  have hc : ¬ (initializing = false ∧ pi.IsAddressPrefix = false ∧
      alloc.GetCreatePrefix = true) := by
    rintro ⟨h1, h2, h3⟩
    rcases hguard with h | h | h
    · rw [h1] at h
      cases h
    · rw [h2] at h
      cases h
    · rw [h3] at h
      cases h
  rw [Apply_differ ops initializing alloc pi s route hfound hdiff]
  cases hf : fatal (written s (ops.Set s (updatedRoute ops alloc route))).2 with
  | some e => exact ⟨rfl, rfl⟩
  | none =>
    simp only [hc, if_false]
    exact ⟨trivial, trivial⟩

/-- A deletion in the log of `Apply` means the sweep ran. -/
theorem Apply_log_delete {σ : Type} (ops : RIB σ) (initializing : Bool) (alloc : IPAllocation)
    (pi : PrefixInfo) (s : σ) (route : Route)
    (hfound : ops.Get s (lookupKey alloc pi) = some route) (c : Route) (err : Option String)
    (hmem : Event.ribDelete c err ∈ (Apply ops initializing alloc pi s).log) :
    labelsEquals alloc.GetFullLabels route.Labels = false ∧
    fatal (written s (ops.Set s (updatedRoute ops alloc route))).2 = none ∧
    initializing = false ∧ pi.IsAddressPrefix = false ∧ alloc.GetCreatePrefix = true := by
  by_cases hsame : labelsEquals alloc.GetFullLabels route.Labels = true
  · rw [Apply_same ops initializing alloc pi s route hfound hsame] at hmem
    simp at hmem
  · have hdiff : labelsEquals alloc.GetFullLabels route.Labels = false := by
      simpa using hsame
    by_cases hc : initializing = false ∧ pi.IsAddressPrefix = false ∧
        alloc.GetCreatePrefix = true
    · refine ⟨hdiff, ?_, hc⟩
      rw [Apply_differ ops initializing alloc pi s route hfound hdiff] at hmem
      cases hf : fatal (written s (ops.Set s (updatedRoute ops alloc route))).2 with
      | some e =>
        simp [hf] at hmem
      | none => rfl
    · have hguard : initializing = true ∨ pi.IsAddressPrefix = true ∨
          alloc.GetCreatePrefix = false := by
        by_cases h1 : initializing = true
        · exact Or.inl h1
        · by_cases h2 : pi.IsAddressPrefix = true
          · exact Or.inr (Or.inl h2)
          · by_cases h3 : alloc.GetCreatePrefix = true
            · exact absurd ⟨by simpa using h1, by simpa using h2, h3⟩ hc
            · exact Or.inr (Or.inr (by simpa using h3))
      rw [(shape_guard_fails ops initializing alloc pi s route hfound hdiff hguard).2] at hmem
      simp at hmem

/-- The two ways `Apply` ends: with the allocation, every failed `Add` or `Set` of
the log being an "already exists" failure; or with the wrapped error of the one
write it made, the allocation untouched. -/
theorem Apply_outcome {σ : Type} (ops : RIB σ) (initializing : Bool) (alloc : IPAllocation)
    (pi : PrefixInfo) (s : σ) :
    ((Apply ops initializing alloc pi s).ret = .ok (withAllocatedPrefix alloc) ∧
      (Apply ops initializing alloc pi s).alloc = withAllocatedPrefix alloc ∧
      ∀ r e, (Event.ribAdd r (some e) ∈ (Apply ops initializing alloc pi s).log ∨
          Event.ribSet r (some e) ∈ (Apply ops initializing alloc pi s).log) →
        stringsContains e "already exists" = true) ∨
    (∃ r e, stringsContains e "already exists" = false ∧
      (Apply ops initializing alloc pi s).alloc = alloc ∧
      (((Apply ops initializing alloc pi s).ret = .error (errorsWrap e "cannot add prefix") ∧
          (Apply ops initializing alloc pi s).log = [Event.ribAdd r (some e)]) ∨
        ((Apply ops initializing alloc pi s).ret =
            .error (errorsWrap e "cannot update prefix") ∧
          (Apply ops initializing alloc pi s).log = [Event.ribSet r (some e)]))) := by
  cases hg : ops.Get s (lookupKey alloc pi) with
  | none =>
    rw [Apply_absent ops initializing alloc pi s hg]
    cases hf : fatal (written s (ops.Add s
        (NewRoute (lookupKey alloc pi) alloc.GetFullLabels []))).2 with
    | some e =>
      obtain ⟨hw, hc⟩ := fatal_some _ e hf
      right
      exact ⟨NewRoute (lookupKey alloc pi) alloc.GetFullLabels [], e, hc, rfl,
        Or.inl ⟨rfl, by simp [hw]⟩⟩
    | none =>
      left
      refine ⟨rfl, rfl, ?_⟩
      intro r e hmem
      simp only [List.mem_singleton] at hmem
      rcases hmem with hmem | hmem
      · injection hmem with _ hw
        exact (fatal_none_iff _).1 hf e hw.symm
      · cases hmem
  | some route =>
    by_cases hsame : labelsEquals alloc.GetFullLabels route.Labels = true
    · rw [Apply_same ops initializing alloc pi s route hg hsame]
      left
      refine ⟨rfl, rfl, ?_⟩
      intro r e hmem
      simp at hmem
    · have hdiff : labelsEquals alloc.GetFullLabels route.Labels = false := by
        simpa using hsame
      rw [Apply_differ ops initializing alloc pi s route hg hdiff]
      cases hf : fatal (written s (ops.Set s (updatedRoute ops alloc route))).2 with
      | some e =>
        obtain ⟨hw, hc⟩ := fatal_some _ e hf
        right
        exact ⟨updatedRoute ops alloc route, e, hc, rfl, Or.inr ⟨rfl, by simp [hw]⟩⟩
      | none =>
        left
        have hhead : ∀ r e, Event.ribSet r (some e) =
            Event.ribSet (updatedRoute ops alloc route)
              (written s (ops.Set s (updatedRoute ops alloc route))).2 →
            stringsContains e "already exists" = true := by
          intro r e h
          injection h with _ hw
          exact (fatal_none_iff _).1 hf e hw.symm
        by_cases hc : initializing = false ∧ pi.IsAddressPrefix = false ∧
            alloc.GetCreatePrefix = true
        · simp only [hc, and_self, if_true]
          refine ⟨trivial, trivial, ?_⟩
          intro r e hmem
          simp only [List.mem_cons, List.mem_append, List.mem_singleton] at hmem
          rcases hmem with (hmem | hmem | hmem) | (hmem | hmem | hmem)
          · cases hmem
          · obtain ⟨c, e1, he, _⟩ := sweepChildren_log _ _ _ _ _ hmem
            cases he
          · rcases hmem with hmem | hmem <;> cases hmem
          · exact hhead r e hmem
          · obtain ⟨c, e1, he, _⟩ := sweepChildren_log _ _ _ _ _ hmem
            cases he
          · rcases hmem with hmem | hmem <;> cases hmem
        · simp only [hc, if_false]
          refine ⟨trivial, trivial, ?_⟩
          intro r e hmem
          simp only [List.mem_singleton] at hmem
          rcases hmem with hmem | hmem
          · cases hmem
          · exact hhead r e hmem

/-! ## The applicator: create and update -/

/-- C1 (create path): let the lookup key be the address form of the prefix when
the prefix kind is network and create-prefix is false, and the prefix form
otherwise.  When that key is absent from the RIB and the insert succeeds, `Apply`
performs exactly one write, the `Add` of the new Route; the Routes that are in
the RIB afterwards and were not before are exactly that one Route; it is stored
at the lookup key with the allocation's full label set and an empty payload; and
every other prefix of the RIB holds what it held before. -/
theorem apply_create_path {σ : Type} (ops : RIB σ) (hadd : AddStores ops)
    (initializing : Bool) (alloc : IPAllocation) (pi : PrefixInfo) (s s1 : σ)
    (key : NetPrefix)
    (hkey : key =
      if alloc.GetPrefixKind = PrefixKind.PrefixKindNetwork ∧ alloc.GetCreatePrefix = false then
        pi.GetIPAddressPrefix
      else pi.GetIPPrefix)
    (habsent : ops.Get s key = none)
    (hins : ops.Add s { Prefix := key, Labels := alloc.GetFullLabels, Data := [] } = .ok s1) :
    (Apply ops initializing alloc pi s).log =
        [Event.ribAdd { Prefix := key, Labels := alloc.GetFullLabels, Data := [] } none] ∧
    (∀ r : Route,
      (ops.Get (Apply ops initializing alloc pi s).rib r.Prefix = some r ∧
          ops.Get s r.Prefix ≠ some r) ↔
        r = { Prefix := key, Labels := alloc.GetFullLabels, Data := [] }) ∧
    ops.Get (Apply ops initializing alloc pi s).rib key =
        some { Prefix := key, Labels := alloc.GetFullLabels, Data := [] } ∧
    (∀ p, p ≠ key → ops.Get (Apply ops initializing alloc pi s).rib p = ops.Get s p) := by
  have hk : key = lookupKey alloc pi := hkey
  subst hk
  have hins1 : ops.Add s (NewRoute (lookupKey alloc pi) alloc.GetFullLabels []) = .ok s1 := hins
  have hres : Apply ops initializing alloc pi s =
      { ret := .ok (withAllocatedPrefix alloc), alloc := withAllocatedPrefix alloc, rib := s1,
        log := [Event.ribAdd (NewRoute (lookupKey alloc pi) alloc.GetFullLabels []) none] } := by
    rw [Apply_absent ops initializing alloc pi s habsent]
    simp [hins1, written, fatal]
  have hget : ∀ p, ops.Get s1 p =
      if p = lookupKey alloc pi then
        some (NewRoute (lookupKey alloc pi) alloc.GetFullLabels [])
      else ops.Get s p := fun p => hadd s _ s1 hins1 p
  rw [hres]
  refine ⟨rfl, ?_, ?_, ?_⟩
  · intro r
    constructor
    · rintro ⟨h1, h2⟩
      simp only at h1
      rw [hget] at h1
      by_cases hp : r.Prefix = lookupKey alloc pi
      · rw [if_pos hp] at h1
        exact (Option.some.inj h1).symm
      · rw [if_neg hp] at h1
        exact absurd h1 h2
    · intro hr
      subst hr
      constructor
      · simp only
        rw [hget]
        simp [NewRoute]
      · simp [habsent]
  · simp only
    rw [hget]
    simp [NewRoute]
  · intro p hp
    simp only
    rw [hget, if_neg hp]

/-- Witness of `apply_create_path`: a network request with create-prefix false
applied to the three Routes of the scenario.  The key is the address form
`10.0.0.0/32`, not the prefix `10.0.0.0/24` that the RIB holds; the new Route is
stored there and the three Routes stay as they were. -/
theorem apply_create_path_witness :
    exAllocGw.GetPrefixKind = PrefixKind.PrefixKindNetwork ∧
    exAllocGw.GetCreatePrefix = false ∧
    exPi.GetIPAddressPrefix = exNetAddr ∧ exPi.GetIPPrefix = exNet ∧
    (memRIB exCovers noFaults).Get exRib exNet = some exNetRoute ∧
    (memRIB exCovers noFaults).Get exRib exNetAddr = none ∧
    (memRIB exCovers noFaults).Get
        (Apply (memRIB exCovers noFaults) false exAllocGw exPi exRib).rib exNetAddr =
      some { Prefix := exNetAddr, Labels := exOwner "o2", Data := [] } ∧
    (memRIB exCovers noFaults).Get
        (Apply (memRIB exCovers noFaults) false exAllocGw exPi exRib).rib exNet =
      some exNetRoute ∧
    (memRIB exCovers noFaults).Get
        (Apply (memRIB exCovers noFaults) false exAllocGw exPi exRib).rib exAddr1 =
      some exChild1 ∧
    (memRIB exCovers noFaults).Get
        (Apply (memRIB exCovers noFaults) false exAllocGw exPi exRib).rib exAddr2 =
      some exChild2 := by
  have h := apply_create_path (memRIB exCovers noFaults) (memRIB_addStores exCovers noFaults)
    false exAllocGw exPi exRib
    ({ Prefix := exNetAddr, Labels := exOwner "o2", Data := [] } :: exRib) exNetAddr
    (by decide) rfl rfl
  exact ⟨rfl, rfl, rfl, rfl, rfl, rfl, h.2.2.1, (h.2.2.2 exNet (by decide)).trans rfl,
    (h.2.2.2 exAddr1 (by decide)).trans rfl, (h.2.2.2 exAddr2 (by decide)).trans rfl⟩

/-- The create path with the prefix form: the request of the scenario
(create-prefix true) applied to a RIB that holds the two addresses only stores
the network under `10.0.0.0/24` and leaves the addresses alone. -/
theorem create_path_prefix_form :
    exAlloc.GetCreatePrefix = true ∧
    (memRIB exCovers noFaults).Get [exChild1, exChild2] exNet = none ∧
    (Apply (memRIB exCovers noFaults) false exAlloc exPi [exChild1, exChild2]).rib =
      [{ Prefix := exNet, Labels := exOwner "o2", Data := [] }, exChild1, exChild2] ∧
    (Apply (memRIB exCovers noFaults) false exAlloc exPi [exChild1, exChild2]).log =
      [Event.ribAdd { Prefix := exNet, Labels := exOwner "o2", Data := [] } none] := by
  refine ⟨rfl, rfl, rfl, rfl⟩

/-- C2 (update path): when the lookup key is present in the RIB, `Apply` never
calls `Add`; no prefix is in the RIB afterwards that was not in it before; the
Route stored at the lookup key afterwards has the prefix and the payload of the
Route found there, and the labels of that Route or the allocation's full label
set; and once a `Set` has succeeded its label set is the allocation's full label
set. -/
theorem apply_update_path {σ : Type} (ops : RIB σ) (hk : GetKeyed ops) (hset : SetStores ops)
    (hdel : DeleteStores ops) (hch : ChildrenProper ops) (hul : UpdateLabelReplaces ops)
    (initializing : Bool) (alloc : IPAllocation) (pi : PrefixInfo) (s : σ) (route : Route)
    (hfound : ops.Get s (lookupKey alloc pi) = some route) :
    (∀ r err, Event.ribAdd r err ∉ (Apply ops initializing alloc pi s).log) ∧
    (∀ p, ops.Get s p = none → ops.Get (Apply ops initializing alloc pi s).rib p = none) ∧
    (∃ r1, ops.Get (Apply ops initializing alloc pi s).rib (lookupKey alloc pi) = some r1 ∧
      r1.Prefix = route.Prefix ∧ r1.Data = route.Data ∧
      (r1.Labels = route.Labels ∨ r1.Labels = alloc.GetFullLabels) ∧
      ((∃ r, Event.ribSet r none ∈ (Apply ops initializing alloc pi s).log) →
        r1.Labels = alloc.GetFullLabels)) := by
  have hkey := updatedRoute_key ops hk hul alloc pi s route hfound
  have hupd : updatedRoute ops alloc route = { route with Labels := alloc.GetFullLabels } := by
    rw [updatedRoute, hul]
  have hafter := ribAfterSet_get ops hset alloc s route
  have hsweep := sweep_keeps_key ops hdel hch alloc s route
  rw [hkey] at hsweep
  have hlog := sweepChildren_log ops alloc.GetFullLabels (sweptChildren ops alloc s route)
    (ribAfterSet ops alloc s route)
  have hnone : ∀ p, ops.Get s p = none → ops.Get (ribAfterSet ops alloc s route) p = none := by
    intro p hp
    rw [hafter p]
    split
    · rename_i h
      rw [h.1, hkey, hfound] at hp
      exact absurd hp (by simp)
    · exact hp
  -- the Route under the key right after the Set
  have hstored : ∃ r1, ops.Get (ribAfterSet ops alloc s route) (lookupKey alloc pi) = some r1 ∧
      r1.Prefix = route.Prefix ∧ r1.Data = route.Data ∧
      (r1.Labels = route.Labels ∨ r1.Labels = alloc.GetFullLabels) ∧
      ((written s (ops.Set s (updatedRoute ops alloc route))).2 = none →
        r1.Labels = alloc.GetFullLabels) := by
    rw [hafter (lookupKey alloc pi)]
    by_cases hw : (written s (ops.Set s (updatedRoute ops alloc route))).2 = none
    · refine ⟨updatedRoute ops alloc route, by simp [hkey, hw], ?_, ?_, ?_, ?_⟩ <;> simp [hupd]
    · refine ⟨route, by simp [hw, hfound], rfl, rfl, Or.inl rfl, fun h => absurd h hw⟩
  by_cases hsame : labelsEquals alloc.GetFullLabels route.Labels = true
  · rw [Apply_same ops initializing alloc pi s route hfound hsame]
    refine ⟨by simp, fun p hp => hp, route, hfound, rfl, rfl, Or.inl rfl, ?_⟩
    simp
  · have hdiff : labelsEquals alloc.GetFullLabels route.Labels = false := by
      simpa using hsame
    rw [Apply_differ ops initializing alloc pi s route hfound hdiff]
    cases hf : fatal (written s (ops.Set s (updatedRoute ops alloc route))).2 with
    | some e =>
      have hw := (fatal_some _ e hf).1
      obtain ⟨r1, h1, h2, h3, h4, _⟩ := hstored
      refine ⟨by simp, hnone, r1, h1, h2, h3, h4, ?_⟩
      simp [hw]
    | none =>
      by_cases hc : initializing = false ∧ pi.IsAddressPrefix = false ∧
          alloc.GetCreatePrefix = true
      · simp only [hc, and_self, if_true]
        obtain ⟨r1, h1, h2, h3, h4, h5⟩ := hstored
        refine ⟨?_, ?_, r1, ?_, h2, h3, h4, ?_⟩
        · intro r err hmem
          simp only [List.mem_cons, List.mem_append, List.mem_singleton] at hmem
          rcases hmem with hmem | hmem | hmem
          · cases hmem
          · obtain ⟨c, e1, he, _⟩ := hlog _ hmem
            cases he
          · rcases hmem with hmem | hmem <;> cases hmem
        · intro p hp
          exact sweepChildren_get_none ops hdel _ p _ _ (hnone p hp)
        · rw [hsweep]
          exact h1
        · rintro ⟨r, hmem⟩
          simp only [List.mem_cons, List.mem_append, List.mem_singleton] at hmem
          rcases hmem with hmem | hmem | hmem
          · injection hmem with _ hw
            exact h5 hw.symm
          · obtain ⟨c, e1, he, _⟩ := hlog _ hmem
            cases he
          · rcases hmem with hmem | hmem <;> cases hmem
      · simp only [hc, if_false]
        obtain ⟨r1, h1, h2, h3, h4, h5⟩ := hstored
        refine ⟨by simp, hnone, r1, h1, h2, h3, h4, ?_⟩
        rintro ⟨r, hmem⟩
        simp only [List.mem_singleton] at hmem
        injection hmem with _ hw
        exact h5 hw.symm

/-- Witness of `apply_update_path`: the ownership transfer of the scenario. -/
theorem apply_update_path_witness :
    (memRIB exCovers noFaults).Get exRib (lookupKey exAlloc exPi) = some exNetRoute ∧
    (∀ p, (memRIB exCovers noFaults).Get exRib p = none →
      (memRIB exCovers noFaults).Get
        (Apply (memRIB exCovers noFaults) false exAlloc exPi exRib).rib p = none) :=
  ⟨rfl,
    (apply_update_path (memRIB exCovers noFaults) (memRIB_getKeyed exCovers noFaults)
      (memRIB_setStores exCovers noFaults) (memRIB_deleteStores exCovers noFaults)
      (memRIB_childrenProper exCovers noFaults) (memRIB_updateLabelReplaces exCovers noFaults)
      false exAlloc exPi exRib exNetRoute rfl).2.1⟩

/-- C3, as stated, fails after a swallowed failure: in the scenario, over a RIB
whose `Set` fails with "route already exists", the first `Apply` returns no
error (the failure is swallowed at line 87), and the second `Apply` on the
resulting RIB again calls `Set` and again notifies the watcher. -/
theorem swallowed_update_repeats :
    (Apply (memRIB exCovers setRefuses) false exAlloc exPi exRib).ret =
      .ok (withAllocatedPrefix exAlloc) ∧
    (Apply (memRIB exCovers setRefuses) false exAlloc exPi exRib).rib = [exNetRoute] ∧
    (Apply (memRIB exCovers setRefuses) false exAlloc exPi
        (Apply (memRIB exCovers setRefuses) false exAlloc exPi exRib).rib).ret =
      .ok (withAllocatedPrefix exAlloc) ∧
    (Apply (memRIB exCovers setRefuses) false exAlloc exPi
        (Apply (memRIB exCovers setRefuses) false exAlloc exPi exRib).rib).log =
      [Event.ribSet { Prefix := exNet, Labels := exOwner "o2", Data := [] }
          (some "route already exists"),
        Event.handleUpdate [] StatusCode.Unknown] ∧
    notifications (Apply (memRIB exCovers setRefuses) false exAlloc exPi
        (Apply (memRIB exCovers setRefuses) false exAlloc exPi exRib).rib).log =
      [([], StatusCode.Unknown)] := by
  refine ⟨rfl, rfl, rfl, rfl, rfl⟩

/-- C3, amended (idempotent apply): over a RIB whose successful writes take
effect, whenever a first `Apply` returns no error and none of its `Add` or `Set`
failed (no swallowed "already exists"), applying the allocation again to the
resulting RIB (whatever the initializing flag, and whether the allocation is
taken before or after the first call) returns no error, performs no RIB write
and no watcher call, leaves the RIB as the first `Apply` left it, and yields the
same allocation, hence the same `Status.AllocatedPrefix`. -/
theorem apply_idempotent {σ : Type} (ops : RIB σ) (hk : GetKeyed ops) (hadd : AddStores ops)
    (hset : SetStores ops) (hdel : DeleteStores ops) (hch : ChildrenProper ops)
    (hul : UpdateLabelReplaces ops)
    (initializing again : Bool) (alloc : IPAllocation) (pi : PrefixInfo) (s : σ)
    (_hok : ∃ a, (Apply ops initializing alloc pi s).ret = .ok a)
    (hclean : ∀ r e, Event.ribAdd r (some e) ∉ (Apply ops initializing alloc pi s).log ∧
      Event.ribSet r (some e) ∉ (Apply ops initializing alloc pi s).log) :
    Apply ops again (Apply ops initializing alloc pi s).alloc pi
        (Apply ops initializing alloc pi s).rib =
      { ret := .ok (Apply ops initializing alloc pi s).alloc,
        alloc := (Apply ops initializing alloc pi s).alloc,
        rib := (Apply ops initializing alloc pi s).rib, log := [] } ∧
    Apply ops again alloc pi (Apply ops initializing alloc pi s).rib =
      { ret := .ok (Apply ops initializing alloc pi s).alloc,
        alloc := (Apply ops initializing alloc pi s).alloc,
        rib := (Apply ops initializing alloc pi s).rib, log := [] } := by
  obtain ⟨⟨r1, hget, hlab⟩, halloc⟩ :=
    apply_ok_stored ops hk hadd hset hdel hch hul initializing alloc pi s hclean
  rw [halloc]
  constructor
  · exact Apply_same ops again (withAllocatedPrefix alloc) pi _ r1 hget hlab
  · exact Apply_same ops again alloc pi _ r1 hget hlab

/-- Witness of `apply_idempotent`: the ownership transfer of the scenario, applied
twice; the second pass changes nothing. -/
theorem apply_idempotent_witness :
    (∃ a, (Apply (memRIB exCovers noFaults) false exAlloc exPi exRib).ret = .ok a) ∧
    (Apply (memRIB exCovers noFaults) false exAlloc exPi exRib).log =
      [Event.ribSet { Prefix := exNet, Labels := exOwner "o2", Data := [] } none,
        Event.ribDelete exChild1 none, Event.ribDelete exChild2 none,
        Event.handleUpdate [exChild1, exChild2] StatusCode.Unknown] ∧
    (Apply (memRIB exCovers noFaults) false exAlloc exPi
        (Apply (memRIB exCovers noFaults) false exAlloc exPi exRib).rib).log = [] ∧
    (Apply (memRIB exCovers noFaults) false exAlloc exPi
        (Apply (memRIB exCovers noFaults) false exAlloc exPi exRib).rib).rib =
      [{ Prefix := exNet, Labels := exOwner "o2", Data := [] }] := by
  have hlog : (Apply (memRIB exCovers noFaults) false exAlloc exPi exRib).log =
      [Event.ribSet { Prefix := exNet, Labels := exOwner "o2", Data := [] } none,
        Event.ribDelete exChild1 none, Event.ribDelete exChild2 none,
        Event.handleUpdate [exChild1, exChild2] StatusCode.Unknown] := rfl
  have h := apply_idempotent (memRIB exCovers noFaults) (memRIB_getKeyed exCovers noFaults)
    (memRIB_addStores exCovers noFaults) (memRIB_setStores exCovers noFaults)
    (memRIB_deleteStores exCovers noFaults) (memRIB_childrenProper exCovers noFaults)
    (memRIB_updateLabelReplaces exCovers noFaults)
    false false exAlloc exPi exRib ⟨_, rfl⟩
    (by
      intro r e
      rw [hlog]
      constructor <;> simp)
  exact ⟨⟨_, rfl⟩, hlog, congrArg ApplyResult.log h.2, rfl⟩

/-! ## The applicator: the ownership sweep -/

/-- C4, as stated, fails when the label update aborts: in the scenario, with a
RIB whose `Set` fails with "rib unavailable", the Route exists, its labels
differ, the pass is not initializing, the prefix is not an address prefix,
create-prefix is true and no deletion fails, yet `Apply` returns an error, both
children (whose owner differs) are still in the RIB and the watcher is never
called. -/
theorem aborted_update_skips_sweep :
    (memRIB exCovers setBroken).Get exRib (lookupKey exAlloc exPi) = some exNetRoute ∧
    labelsEquals exAlloc.GetFullLabels exNetRoute.Labels = false ∧
    exPi.IsAddressPrefix = false ∧ exAlloc.GetCreatePrefix = true ∧
    sweptChildren (memRIB exCovers setBroken) exAlloc exRib exNetRoute = [exChild1, exChild2] ∧
    ownerDiffers exAlloc.GetFullLabels exChild1 = true ∧
    ownerDiffers exAlloc.GetFullLabels exChild2 = true ∧
    (∀ c e, Event.ribDelete c (some e) ∉
      (Apply (memRIB exCovers setBroken) false exAlloc exPi exRib).log) ∧
    (Apply (memRIB exCovers setBroken) false exAlloc exPi exRib).ret =
      .error "cannot update prefix: rib unavailable" ∧
    (memRIB exCovers setBroken).Get
      (Apply (memRIB exCovers setBroken) false exAlloc exPi exRib).rib exAddr1 = some exChild1 ∧
    (memRIB exCovers setBroken).Get
      (Apply (memRIB exCovers setBroken) false exAlloc exPi exRib).rib exAddr2 = some exChild2 ∧
    notifications (Apply (memRIB exCovers setBroken) false exAlloc exPi exRib).log = [] := by
  have hlog : (Apply (memRIB exCovers setBroken) false exAlloc exPi exRib).log =
      [Event.ribSet { Prefix := exNet, Labels := exOwner "o2", Data := [] }
        (some "rib unavailable")] := rfl
  refine ⟨rfl, by decide, rfl, rfl, by decide, by decide, by decide, ?_, rfl, rfl, rfl, rfl⟩
  intro c e h
  rw [hlog] at h
  simp at h

/-- C4, amended (ownership-transfer cascade): when the Route at the lookup key
exists, its labels differ from the allocation's full labels, the pass is not
initializing, the prefix is not a single-address prefix, create-prefix is true,
`Apply` returns no error and no child deletion fails, then every child whose
owner name or owner namespace differs is gone from the RIB, every child whose
owner name and namespace both match is still there, and the watcher is called
exactly once, with the children whose owner differs, in child order, and the
status code Unknown. -/
theorem apply_cascade {σ : Type} (ops : RIB σ) (hdel : DeleteStores ops)
    (alloc : IPAllocation) (pi : PrefixInfo) (s : σ) (route : Route)
    (hfound : ops.Get s (lookupKey alloc pi) = some route)
    (hdiff : labelsEquals alloc.GetFullLabels route.Labels = false)
    (haddr : pi.IsAddressPrefix = false) (hcreate : alloc.GetCreatePrefix = true)
    (hok : ∃ a, (Apply ops false alloc pi s).ret = .ok a)
    (hstored : ∀ c ∈ sweptChildren ops alloc s route,
      ops.Get (ribAfterSet ops alloc s route) c.Prefix = some c)
    (hdelok : ∀ c e, Event.ribDelete c (some e) ∉ (Apply ops false alloc pi s).log) :
    (∀ c ∈ sweptChildren ops alloc s route, ownerDiffers alloc.GetFullLabels c = true →
      ops.Get (Apply ops false alloc pi s).rib c.Prefix = none) ∧
    (∀ c ∈ sweptChildren ops alloc s route, ownerDiffers alloc.GetFullLabels c = false →
      ops.Get (Apply ops false alloc pi s).rib c.Prefix = some c) ∧
    notifications (Apply ops false alloc pi s).log =
      [((sweptChildren ops alloc s route).filter (ownerDiffers alloc.GetFullLabels),
        StatusCode.Unknown)] := by
  have hupd : fatal (written s (ops.Set s (updatedRoute ops alloc route))).2 = none := by
    obtain ⟨a, ha⟩ := hok
    rw [Apply_differ ops false alloc pi s route hfound hdiff] at ha
    cases hf : fatal (written s (ops.Set s (updatedRoute ops alloc route))).2 with
    | some e => simp [hf] at ha
    | none => rfl
  have hshape := shape_sweep ops alloc pi s route hfound hdiff hupd haddr hcreate
  rw [hshape] at hdelok ⊢
  have hdelok1 : ∀ c e, Event.ribDelete c (some e) ∉
      (sweepChildren ops alloc.GetFullLabels (sweptChildren ops alloc s route)
        (ribAfterSet ops alloc s route)).2.2 := by
    intro c e hmem
    exact hdelok c e (List.mem_cons_of_mem _ (List.mem_append_left _ hmem))
  refine ⟨?_, ?_, ?_⟩
  · intro c hc hd
    exact sweepChildren_removed ops hdel _ _ _ hdelok1 c hc hd
  · intro c hc hd
    simp only
    rw [sweepChildren_get_other ops hdel]
    · exact hstored c hc
    · intro d hdmem hdd heq
      have h1 := hstored d hdmem
      rw [heq, hstored c hc] at h1
      rw [Option.some.inj h1, hdd] at hd
      cases hd
  · simp only [notifications, notifications_append, sweepChildren_notifications,
      List.nil_append]

/-- Witness of `apply_cascade`: in the scenario both children carry the old owner;
both are removed and the single batch holds both. -/
theorem apply_cascade_witness :
    (memRIB exCovers noFaults).Get exRib (lookupKey exAlloc exPi) = some exNetRoute ∧
    sweptChildren (memRIB exCovers noFaults) exAlloc exRib exNetRoute = [exChild1, exChild2] ∧
    (memRIB exCovers noFaults).Get
      (Apply (memRIB exCovers noFaults) false exAlloc exPi exRib).rib exAddr1 = none ∧
    (memRIB exCovers noFaults).Get
      (Apply (memRIB exCovers noFaults) false exAlloc exPi exRib).rib exAddr2 = none ∧
    notifications (Apply (memRIB exCovers noFaults) false exAlloc exPi exRib).log =
      [([exChild1, exChild2], StatusCode.Unknown)] := by
  have hlog : (Apply (memRIB exCovers noFaults) false exAlloc exPi exRib).log =
      [Event.ribSet { Prefix := exNet, Labels := exOwner "o2", Data := [] } none,
        Event.ribDelete exChild1 none, Event.ribDelete exChild2 none,
        Event.handleUpdate [exChild1, exChild2] StatusCode.Unknown] := rfl
  have h := apply_cascade (memRIB exCovers noFaults) (memRIB_deleteStores exCovers noFaults)
    exAlloc exPi exRib exNetRoute rfl (by decide) rfl rfl ⟨_, rfl⟩ (by decide)
    (by
      intro c e hmem
      rw [hlog] at hmem
      simp at hmem)
  exact ⟨rfl, by decide, h.1 exChild1 (by decide) (by decide),
    h.1 exChild2 (by decide) (by decide), h.2.2⟩

/-- C5 (no cascade outside the guarded case): on an existing Route whose labels
differ from the allocation's, if the initializing flag is set, or the prefix is a
single-address prefix, or create-prefix is false, then the only effect of `Apply`
is the `Set` of the relabelled Route: no Route is deleted, the watcher is never
called, and every prefix other than that of the relabelled Route holds what it
held before. -/
theorem apply_no_cascade {σ : Type} (ops : RIB σ) (hset : SetStores ops)
    (initializing : Bool) (alloc : IPAllocation) (pi : PrefixInfo) (s : σ) (route : Route)
    (hfound : ops.Get s (lookupKey alloc pi) = some route)
    (hdiff : labelsEquals alloc.GetFullLabels route.Labels = false)
    (hguard : initializing = true ∨ pi.IsAddressPrefix = true ∨ alloc.GetCreatePrefix = false) :
    (Apply ops initializing alloc pi s).log =
      [Event.ribSet (updatedRoute ops alloc route)
        (written s (ops.Set s (updatedRoute ops alloc route))).2] ∧
    (∀ c err, Event.ribDelete c err ∉ (Apply ops initializing alloc pi s).log) ∧
    notifications (Apply ops initializing alloc pi s).log = [] ∧
    (∀ p, p ≠ (updatedRoute ops alloc route).Prefix →
      ops.Get (Apply ops initializing alloc pi s).rib p = ops.Get s p) := by
  obtain ⟨hrib, hlog⟩ := shape_guard_fails ops initializing alloc pi s route hfound hdiff hguard
  rw [hrib, hlog]
  refine ⟨rfl, by simp, rfl, ?_⟩
  intro p hp
  rw [ribAfterSet_get ops hset alloc s route p]
  simp [hp]

/-- Witness of `apply_no_cascade`: the ownership transfer of the scenario with the
initializing flag set relabels the network and leaves both children in the RIB. -/
theorem apply_no_cascade_witness :
    (memRIB exCovers noFaults).Get exRib (lookupKey exAlloc exPi) = some exNetRoute ∧
    labelsEquals exAlloc.GetFullLabels exNetRoute.Labels = false ∧
    (Apply (memRIB exCovers noFaults) true exAlloc exPi exRib).log =
      [Event.ribSet { Prefix := exNet, Labels := exOwner "o2", Data := [] } none] ∧
    (memRIB exCovers noFaults).Get
      (Apply (memRIB exCovers noFaults) true exAlloc exPi exRib).rib exAddr1 = some exChild1 ∧
    (memRIB exCovers noFaults).Get
      (Apply (memRIB exCovers noFaults) true exAlloc exPi exRib).rib exAddr2 = some exChild2 := by
  have h := apply_no_cascade (memRIB exCovers noFaults) (memRIB_setStores exCovers noFaults)
    true exAlloc exPi exRib exNetRoute rfl (by decide) (Or.inl rfl)
  exact ⟨rfl, by decide, h.1, (h.2.2.2 exAddr1 (by decide)).trans rfl,
    (h.2.2.2 exAddr2 (by decide)).trans rfl⟩

/-! ## The applicator: errors and status -/

/-- C6: `Apply` returns an error exactly when the RIB write it performed (`Add` on
the create path, `Set` on the update path) failed with an error whose text does
not contain "already exists", and the error then wraps that text ("cannot add
prefix" / "cannot update prefix"); when every failed `Add` or `Set` is an
"already exists" failure `Apply` returns the allocation; and a failed deletion
of a child only occurs in a run that returns the allocation. -/
theorem apply_error_iff {σ : Type} (ops : RIB σ) (initializing : Bool) (alloc : IPAllocation)
    (pi : PrefixInfo) (s : σ) :
    (∀ msg, (Apply ops initializing alloc pi s).ret = .error msg ↔
      ∃ r e, stringsContains e "already exists" = false ∧
        ((Event.ribAdd r (some e) ∈ (Apply ops initializing alloc pi s).log ∧
            msg = errorsWrap e "cannot add prefix") ∨
          (Event.ribSet r (some e) ∈ (Apply ops initializing alloc pi s).log ∧
            msg = errorsWrap e "cannot update prefix"))) ∧
    ((∀ r e, (Event.ribAdd r (some e) ∈ (Apply ops initializing alloc pi s).log ∨
          Event.ribSet r (some e) ∈ (Apply ops initializing alloc pi s).log) →
        stringsContains e "already exists" = true) →
      (Apply ops initializing alloc pi s).ret = .ok (Apply ops initializing alloc pi s).alloc) ∧
    (∀ c e, Event.ribDelete c (some e) ∈ (Apply ops initializing alloc pi s).log →
      (Apply ops initializing alloc pi s).ret = .ok (Apply ops initializing alloc pi s).alloc) := by
  rcases Apply_outcome ops initializing alloc pi s with
    ⟨hret, halloc, hben⟩ | ⟨r0, e0, hc0, halloc, ⟨hret, hlog⟩ | ⟨hret, hlog⟩⟩
  · refine ⟨?_, ?_, ?_⟩
    · intro msg
      constructor
      · intro h
        rw [hret] at h
        cases h
      · rintro ⟨r, e, hc, ⟨hmem, _⟩ | ⟨hmem, _⟩⟩
        · rw [hben r e (Or.inl hmem)] at hc
          cases hc
        · rw [hben r e (Or.inr hmem)] at hc
          cases hc
    · intro _
      rw [hret, halloc]
    · intro _ _ _
      rw [hret, halloc]
  · refine ⟨?_, ?_, ?_⟩
    · intro msg
      rw [hret, hlog]
      constructor
      · intro h
        injection h with h
        exact ⟨r0, e0, hc0, Or.inl ⟨by simp, h.symm⟩⟩
      · rintro ⟨r, e, _, ⟨hmem, hmsg⟩ | ⟨hmem, _⟩⟩
        · simp only [List.mem_singleton] at hmem
          injection hmem with _ he
          injection he with he
          rw [hmsg, he]
        · simp at hmem
    · intro h
      have h1 := h r0 e0 (Or.inl (by rw [hlog]; simp))
      rw [h1] at hc0
      cases hc0
    · intro c e hmem
      rw [hlog] at hmem
      simp at hmem
  · refine ⟨?_, ?_, ?_⟩
    · intro msg
      rw [hret, hlog]
      constructor
      · intro h
        injection h with h
        exact ⟨r0, e0, hc0, Or.inr ⟨by simp, h.symm⟩⟩
      · rintro ⟨r, e, _, ⟨hmem, _⟩ | ⟨hmem, hmsg⟩⟩
        · simp at hmem
        · simp only [List.mem_singleton] at hmem
          injection hmem with _ he
          injection he with he
          rw [hmsg, he]
    · intro h
      have h1 := h r0 e0 (Or.inr (by rw [hlog]; simp))
      rw [h1] at hc0
      cases hc0
    · intro c e hmem
      rw [hlog] at hmem
      simp at hmem

/-- C7: when `Apply` returns an error the allocation is exactly as it was before
the call, so `Status.AllocatedPrefix` keeps its value; when `Apply` succeeds it
returns the allocation object it was given, which differs from the allocation
before the call in `Status.AllocatedPrefix` only, now `GetPrefixFromNewAlloc`. -/
theorem apply_status_written {σ : Type} (ops : RIB σ) (initializing : Bool)
    (alloc : IPAllocation) (pi : PrefixInfo) (s : σ) :
    (∀ e, (Apply ops initializing alloc pi s).ret = .error e →
      (Apply ops initializing alloc pi s).alloc = alloc) ∧
    (∀ a, (Apply ops initializing alloc pi s).ret = .ok a →
      a = (Apply ops initializing alloc pi s).alloc ∧
      a = { alloc with
            Status := { alloc.Status with AllocatedPrefix := alloc.GetPrefixFromNewAlloc } }) := by
  rcases Apply_outcome ops initializing alloc pi s with
    ⟨hret, halloc, _⟩ | ⟨r0, e0, _, halloc, ⟨hret, _⟩ | ⟨hret, _⟩⟩
  · rw [hret, halloc]
    refine ⟨fun e h => (by cases h), ?_⟩
    intro a h
    injection h with h
    exact ⟨h.symm, h.symm⟩
  · rw [hret, halloc]
    exact ⟨fun _ _ => rfl, fun a h => by cases h⟩
  · rw [hret, halloc]
    exact ⟨fun _ _ => rfl, fun a h => by cases h⟩

/-- C8, as stated, fails: in the scenario, with a RIB that fails to delete the
first child, that child stays in the RIB, yet the batch handed to the watcher
holds it, next to the child that was removed. -/
theorem failed_child_is_notified :
    Event.ribDelete exChild1 (some "route busy") ∈
      (Apply (memRIB exCovers deleteBroken) false exAlloc exPi exRib).log ∧
    (memRIB exCovers deleteBroken).Get
      (Apply (memRIB exCovers deleteBroken) false exAlloc exPi exRib).rib exAddr1
        = some exChild1 ∧
    (memRIB exCovers deleteBroken).Get
      (Apply (memRIB exCovers deleteBroken) false exAlloc exPi exRib).rib exAddr2 = none ∧
    notifications (Apply (memRIB exCovers deleteBroken) false exAlloc exPi exRib).log =
      [([exChild1, exChild2], StatusCode.Unknown)] ∧
    exChild1 ∈ [exChild1, exChild2] := by
  have hlog : (Apply (memRIB exCovers deleteBroken) false exAlloc exPi exRib).log =
      [Event.ribSet { Prefix := exNet, Labels := exOwner "o2", Data := [] } none,
        Event.ribDelete exChild1 (some "route busy"), Event.ribDelete exChild2 none,
        Event.handleUpdate [exChild1, exChild2] StatusCode.Unknown] := rfl
  refine ⟨?_, rfl, rfl, rfl, by simp⟩
  rw [hlog]
  simp

/-- C8, amended (child deletion failure during the sweep): a child Route whose
deletion fails stays in the RIB, and it is nevertheless part of the single batch
handed to the watcher: the batch holds every child whose owner differs, in child
order, whether its deletion succeeded or not. -/
theorem sweep_failed_deletion {σ : Type} (ops : RIB σ) (hdel : DeleteStores ops)
    (initializing : Bool) (alloc : IPAllocation) (pi : PrefixInfo) (s : σ) (route : Route)
    (hfound : ops.Get s (lookupKey alloc pi) = some route)
    (hstored : ∀ c ∈ sweptChildren ops alloc s route,
      ops.Get (ribAfterSet ops alloc s route) c.Prefix = some c)
    (hnd : ((sweptChildren ops alloc s route).map fun c => c.Prefix).Nodup)
    (c : Route) (e : String)
    (hfail : Event.ribDelete c (some e) ∈ (Apply ops initializing alloc pi s).log) :
    ops.Get (Apply ops initializing alloc pi s).rib c.Prefix = some c ∧
    c ∈ (sweptChildren ops alloc s route).filter (ownerDiffers alloc.GetFullLabels) ∧
    notifications (Apply ops initializing alloc pi s).log =
      [((sweptChildren ops alloc s route).filter (ownerDiffers alloc.GetFullLabels),
        StatusCode.Unknown)] := by
  obtain ⟨hdiff, hupd, hinit, haddr, hcreate⟩ :=
    Apply_log_delete ops initializing alloc pi s route hfound c (some e) hfail
  subst hinit
  rw [shape_sweep ops alloc pi s route hfound hdiff hupd haddr hcreate] at hfail ⊢
  have hfail1 : Event.ribDelete c (some e) ∈
      (sweepChildren ops alloc.GetFullLabels (sweptChildren ops alloc s route)
        (ribAfterSet ops alloc s route)).2.2 := by
    simp only [List.mem_cons, List.mem_append, List.mem_singleton] at hfail
    rcases hfail with hfail | hfail | hfail
    · cases hfail
    · exact hfail
    · rcases hfail with hfail | hfail <;> cases hfail
  obtain ⟨c1, err, h1, h2, h3⟩ := sweepChildren_log _ _ _ _ _ hfail1
  injection h1 with h1 _
  subst h1
  refine ⟨?_, ?_, ?_⟩
  · simp only
    rw [sweepChildren_failed_kept ops hdel _ _ _ hnd c e hfail1]
    exact hstored c h2
  · exact List.mem_filter.2 ⟨h2, h3⟩
  · simp only [notifications, notifications_append, sweepChildren_notifications,
      List.nil_append]

/-- Witness of `sweep_failed_deletion`: the scenario over the RIB that fails to
delete the first child. -/
theorem sweep_failed_deletion_witness :
    (memRIB exCovers deleteBroken).Get exRib (lookupKey exAlloc exPi) = some exNetRoute ∧
    Event.ribDelete exChild1 (some "route busy") ∈
      (Apply (memRIB exCovers deleteBroken) false exAlloc exPi exRib).log ∧
    (memRIB exCovers deleteBroken).Get
      (Apply (memRIB exCovers deleteBroken) false exAlloc exPi exRib).rib exChild1.Prefix
        = some exChild1 ∧
    exChild1 ∈ (sweptChildren (memRIB exCovers deleteBroken) exAlloc exRib exNetRoute).filter
      (ownerDiffers exAlloc.GetFullLabels) := by
  have hlog : (Apply (memRIB exCovers deleteBroken) false exAlloc exPi exRib).log =
      [Event.ribSet { Prefix := exNet, Labels := exOwner "o2", Data := [] } none,
        Event.ribDelete exChild1 (some "route busy"), Event.ribDelete exChild2 none,
        Event.handleUpdate [exChild1, exChild2] StatusCode.Unknown] := rfl
  have hmem : Event.ribDelete exChild1 (some "route busy") ∈
      (Apply (memRIB exCovers deleteBroken) false exAlloc exPi exRib).log := by
    rw [hlog]
    simp
  have h := sweep_failed_deletion (memRIB exCovers deleteBroken)
    (memRIB_deleteStores exCovers deleteBroken) false exAlloc exPi exRib exNetRoute rfl
    (by decide) (by decide) exChild1 "route busy" hmem
  exact ⟨rfl, hmem, h.1, h.2.1⟩

/-! ## The resolver -/

/-- C9 (resolve with no match): when the label selector is well formed and the RIB
returns no Route for it, `GetIPAllocation` returns no error and leaves the
allocation, hence `Status.AllocatedPrefix` and `Status.Gateway`, as it was. -/
theorem resolve_no_match {σ : Type} (ops : RIB σ) (alloc : IPAllocation) (s : σ)
    (sel : Selector) (hsel : alloc.GetLabelSelector = .ok sel)
    (hnone : ops.GetByLabel s sel = []) :
    GetIPAllocation ops alloc s = (alloc, none) := by
  simp only [GetIPAllocation, hsel, hnone]

/-- Witness of `resolve_no_match`: a selector naming an owner that holds no Route
of the scenario. -/
theorem resolve_no_match_witness :
    exAllocNoMatch.GetLabelSelector = .ok { matchLabels := [(NephioNsnNameKey, "nobody")] } ∧
    (memRIB exCovers noFaults).GetByLabel exRib
      { matchLabels := [(NephioNsnNameKey, "nobody")] } = [] ∧
    GetIPAllocation (memRIB exCovers noFaults) exAllocNoMatch exRib = (exAllocNoMatch, none) :=
  ⟨rfl, by decide,
    resolve_no_match (memRIB exCovers noFaults) exAllocNoMatch exRib
      { matchLabels := [(NephioNsnNameKey, "nobody")] } rfl (by decide)⟩

/-- C10 (resolve with matches): when the label selector is well formed and the RIB
returns at least one Route for it, `GetIPAllocation` returns no error and sets
`Status.AllocatedPrefix` to the string form of the prefix of the first Route of
the returned list, whatever the other Routes of the list are. -/
theorem resolve_first_match {σ : Type} (ops : RIB σ) (alloc : IPAllocation) (s : σ)
    (sel : Selector) (route : Route) (others : List Route)
    (hsel : alloc.GetLabelSelector = .ok sel)
    (hmatch : ops.GetByLabel s sel = route :: others) :
    (GetIPAllocation ops alloc s).2 = none ∧
    (GetIPAllocation ops alloc s).1.Status.AllocatedPrefix = route.Prefix.String := by
  simp only [GetIPAllocation, hsel, hmatch]
  by_cases hk : alloc.GetPrefixKind = PrefixKind.PrefixKindNetwork
  · by_cases hc : alloc.GetCreatePrefix = false
    · simp [hk, hc]
    · simp [hk, hc]
  · simp [hk]

/-- Witness of `resolve_first_match`: the selector of the scenario matches all
three Routes; the first one, the network, is taken. -/
theorem resolve_first_match_witness :
    exAlloc.GetLabelSelector = .ok { matchLabels := [(NephioNsnNameKey, "o1")] } ∧
    (memRIB exCovers noFaults).GetByLabel exRib { matchLabels := [(NephioNsnNameKey, "o1")] }
      = exNetRoute :: [exChild1, exChild2] ∧
    (GetIPAllocation (memRIB exCovers noFaults) exAlloc exRib).1.Status.AllocatedPrefix
      = "10.0.0.0/24" :=
  ⟨rfl, by decide,
    ((resolve_first_match (memRIB exCovers noFaults) exAlloc exRib
      { matchLabels := [(NephioNsnNameKey, "o1")] } exNetRoute [exChild1, exChild2] rfl
      (by decide)).2).trans (by decide)⟩

/-- C11 (gateway optional): when create-prefix is true, or the prefix kind is not
network, `GetIPAllocation` leaves `Status.Gateway` as it was before the call,
whatever the RIB returns for the selector and for the gateway selector. -/
theorem resolve_gateway_untouched {σ : Type} (ops : RIB σ) (alloc : IPAllocation) (s : σ)
    (hopt : alloc.GetCreatePrefix = true ∨
      alloc.GetPrefixKind ≠ PrefixKind.PrefixKindNetwork) :
    (GetIPAllocation ops alloc s).1.Status.Gateway = alloc.Status.Gateway := by
  unfold GetIPAllocation
  cases hsel : alloc.GetLabelSelector with
  | error e => rfl
  | ok sel =>
    simp only
    cases hm : ops.GetByLabel s sel with
    | nil => rfl
    | cons route others =>
      simp only
      rcases hopt with hc | hk
      · by_cases hk : alloc.GetPrefixKind = PrefixKind.PrefixKindNetwork
        · simp [hk, hc]
        · simp [hk]
      · simp [hk]

/-- Witness of `resolve_gateway_untouched`: the network request of the scenario,
create-prefix true, over a RIB holding gateway Routes. -/
theorem resolve_gateway_untouched_witness :
    exAlloc.GetCreatePrefix = true ∧
    (GetIPAllocation (memRIB exCovers noFaults) exAlloc exRibGw).1.Status.AllocatedPrefix
      = "10.0.0.0/24" ∧
    (GetIPAllocation (memRIB exCovers noFaults) exAlloc exRibGw).1.Status.Gateway
      = exAlloc.Status.Gateway :=
  ⟨rfl, by decide,
    resolve_gateway_untouched (memRIB exCovers noFaults) exAlloc exRibGw (Or.inl rfl)⟩

/-- C12 (gateway derivation): for a network allocation with create-prefix false
whose selector is well formed and matches at least one Route, after
`GetIPAllocation` the allocated prefix is that of the first match, and
`Status.Gateway` is the bare address of the first Route the RIB returns for the
gateway selector; it is the empty string when the gateway selector cannot be
built and when it matches no Route, whatever the status held before. -/
theorem resolve_gateway_derived {σ : Type} (ops : RIB σ) (alloc : IPAllocation) (s : σ)
    (sel : Selector) (route : Route) (others : List Route)
    (hkind : alloc.GetPrefixKind = PrefixKind.PrefixKindNetwork)
    (hcreate : alloc.GetCreatePrefix = false)
    (hsel : alloc.GetLabelSelector = .ok sel)
    (hmatch : ops.GetByLabel s sel = route :: others) :
    (GetIPAllocation ops alloc s).2 = none ∧
    (GetIPAllocation ops alloc s).1.Status.AllocatedPrefix = route.Prefix.String ∧
    (∀ gsel gw rest, alloc.GetGatewayLabelSelector = .ok gsel →
      ops.GetByLabel s gsel = gw :: rest →
      (GetIPAllocation ops alloc s).1.Status.Gateway = gw.Prefix.AddrString) ∧
    (∀ gsel, alloc.GetGatewayLabelSelector = .ok gsel → ops.GetByLabel s gsel = [] →
      (GetIPAllocation ops alloc s).1.Status.Gateway = "") ∧
    (∀ e, alloc.GetGatewayLabelSelector = .error e →
      (GetIPAllocation ops alloc s).1.Status.Gateway = "") := by
  simp only [GetIPAllocation, hsel, hmatch, hkind, hcreate, if_true]
  refine ⟨trivial, trivial, ?_, ?_, ?_⟩
  · intro gsel gw rest hg hgm
    simp [getGateway, hg, hgm]
  · intro gsel hg hgm
    simp [getGateway, hg, hgm]
  · intro e hg
    simp [getGateway, hg]

/-- Witness of `resolve_gateway_derived`: the network request with create-prefix
false takes the first gateway Route; a stale gateway is overwritten, also by the
empty string when the gateway selector cannot be built. -/
theorem resolve_gateway_derived_witness :
    (memRIB exCovers noFaults).GetByLabel exRibGw { matchLabels := [(NephioNsnNameKey, "o1")] }
      = exNetRoute :: [] ∧
    exAllocGw.Status.Gateway = "192.0.2.1" ∧
    (GetIPAllocation (memRIB exCovers noFaults) exAllocGw exRibGw).1.Status.Gateway
      = "10.0.0.1" ∧
    (GetIPAllocation (memRIB exCovers noFaults) exAllocBadGw exRibGw).1.Status.Gateway = "" :=
  ⟨by decide, rfl,
    ((resolve_gateway_derived (memRIB exCovers noFaults) exAllocGw exRibGw
      { matchLabels := [(NephioNsnNameKey, "o1")] } exNetRoute [] rfl rfl rfl
      (by decide)).2.2.1 { matchLabels := [("nephio.org/gateway", "true")] } exGateway
      [{ Prefix := exAddr2, Labels := [("nephio.org/gateway", "true")], Data := [] }]
      rfl (by decide)).trans rfl,
    (resolve_gateway_derived (memRIB exCovers noFaults) exAllocBadGw exRibGw
      { matchLabels := [(NephioNsnNameKey, "o1")] } exNetRoute [] rfl rfl rfl
      (by decide)).2.2.2.2 "invalid gateway selector" rfl⟩

/-- C13: `GetIPAllocation` returns an error exactly when the primary label
selector cannot be built, and the error is the selector's; in that case the
result does not depend on the RIB at all and the allocation is unchanged.  With
a well-formed primary selector it returns no error, whatever the gateway
selector and the match lists are. -/
theorem resolve_error_iff {σ : Type} (ops : RIB σ) (alloc : IPAllocation) (s : σ) :
    (∀ e, (GetIPAllocation ops alloc s).2 = some e ↔ alloc.GetLabelSelector = .error e) ∧
    (∀ e, alloc.GetLabelSelector = .error e →
      ∀ (τ : Type) (ops1 : RIB τ) (s1 : τ), GetIPAllocation ops1 alloc s1 = (alloc, some e)) ∧
    (∀ sel, alloc.GetLabelSelector = .ok sel → (GetIPAllocation ops alloc s).2 = none) := by
  have hok : ∀ sel, alloc.GetLabelSelector = .ok sel →
      (GetIPAllocation ops alloc s).2 = none := by
    intro sel hsel
    simp only [GetIPAllocation, hsel]
    cases hm : ops.GetByLabel s sel with
    | nil => rfl
    | cons route others =>
      simp only
      by_cases hk : alloc.GetPrefixKind = PrefixKind.PrefixKindNetwork
      · by_cases hc : alloc.GetCreatePrefix = false
        · simp [hk, hc]
        · simp [hk, hc]
      · simp [hk]
  have herr : ∀ e, alloc.GetLabelSelector = .error e →
      ∀ (τ : Type) (ops1 : RIB τ) (s1 : τ), GetIPAllocation ops1 alloc s1 = (alloc, some e) := by
    intro e hsel τ ops1 s1
    simp only [GetIPAllocation, hsel]
  refine ⟨?_, herr, hok⟩
  intro e
  constructor
  · intro h
    cases hsel : alloc.GetLabelSelector with
    | error e1 =>
      rw [herr e1 hsel σ ops s] at h
      injection h with h
      rw [h]
    | ok sel =>
      rw [hok sel hsel] at h
      cases h
  · intro hsel
    rw [herr e hsel σ ops s]

/-! ## The backend registry -/

/-- C14 (registry lookup): `getClient` fails exactly when no connection is cached,
and then with "ipam server unreachable"; when a connection is cached it returns
the client of that connection; in both cases the registry is left as it was, so
no connection is ever created by a lookup. -/
theorem getClient_lookup (r : proxycache) :
    ((∃ e, (getClient r).2 = .error e) ↔ r.allocClient = none) ∧
    (r.allocClient = none → (getClient r).2 = .error "ipam server unreachable") ∧
    (∀ ac, r.allocClient = some ac → (getClient r).2 = .ok ac.Get) ∧
    (getClient r).1 = r := by
  cases hc : r.allocClient with
  | none => simp [getClient, hc]
  | some ac => simp [getClient, hc]

/-- The registry entry after a `deleteClient` on an entry without connection. -/
theorem deleteClient_absent (r : proxycache) (h : r.allocClient = none) :
    deleteClient r = (r, none) := by
  cases r with
  | mk ac svc =>
    simp only at h
    subst h
    rfl

/-- C15 (registry lifecycle): `deleteClient` on an entry whose cached connection
tears down without error discards the connection and returns no error; when the
teardown fails it returns that error and keeps the connection.  After a
`deleteClient` that returns no error no connection is cached and `getClient`
fails with "ipam server unreachable"; `deleteClient` on an entry without
connection returns no error and leaves it as it was, however often it is
repeated; after a `createClient` that returns no error, `getClient` returns the
client of the connection just established; after a `createClient` that returns an
error, no connection is cached and `getClient` fails. -/
theorem registry_lifecycle (allocNew : Config → Except String AllocClient) (r : proxycache) :
    (∀ ac, r.allocClient = some ac → ac.Delete = none →
      deleteClient r = ({ allocClient := none, svcInfo := r.svcInfo }, none)) ∧
    (∀ ac err, r.allocClient = some ac → ac.Delete = some err →
      deleteClient r = (r, some err)) ∧
    ((deleteClient r).2 = none →
      (deleteClient r).1.allocClient = none ∧
      (getClient (deleteClient r).1).2 = .error "ipam server unreachable") ∧
    (r.allocClient = none → deleteClient r = (r, none) ∧
      ∀ n : Nat, (fun x => (deleteClient x).1)^[n] r = r) ∧
    ((createClient allocNew r).2 = none →
      ∃ ac, allocNew (clientConfig r) = .ok ac ∧
        (createClient allocNew r).1.allocClient = some ac ∧
        (getClient (createClient allocNew r).1).2 = .ok ac.Get) ∧
    (∀ e, (createClient allocNew r).2 = some e →
      (createClient allocNew r).1.allocClient = none ∧
      (getClient (createClient allocNew r).1).2 = .error "ipam server unreachable") := by
  refine ⟨?_, ?_, ?_, ?_, ?_, ?_⟩
  · intro ac hc hd
    simp [deleteClient, hc, hd]
  · intro ac err hc hd
    simp [deleteClient, hc, hd]
  · intro h
    cases hc : r.allocClient with
    | none => simp [deleteClient, getClient, hc]
    | some ac =>
      cases hd : ac.Delete with
      | none => simp [deleteClient, getClient, hc, hd]
      | some err => simp [deleteClient, hc, hd] at h
  · intro h
    refine ⟨deleteClient_absent r h, ?_⟩
    intro n
    induction n with
    | zero => rfl
    | succ k ih =>
      rw [Function.iterate_succ_apply', ih, deleteClient_absent r h]
  · intro h
    cases hn : allocNew (clientConfig r) with
    | error err => simp [createClient, hn] at h
    | ok ac => exact ⟨ac, rfl, by simp [createClient, hn], by simp [createClient, getClient, hn]⟩
  · intro e h
    cases hn : allocNew (clientConfig r) with
    | error err => simp [createClient, getClient, hn]
    | ok ac => simp [createClient, hn] at h

/-- Witness of `registry_lifecycle`: the entry holding a connection.  `getClient`
returns its client; `deleteClient` discards the connection, after which
`getClient` fails; a `createClient` on the emptied entry caches the new
connection, which `getClient` then returns. -/
theorem registry_lifecycle_witness :
    exCache.allocClient = some exConn ∧
    (getClient exCache).2 = .ok 1 ∧
    deleteClient exCache = (exCacheEmpty, none) ∧
    (getClient (deleteClient exCache).1).2 = .error "ipam server unreachable" ∧
    (getClient (createClient dialAccepted (deleteClient exCache).1).1).2 = .ok 2 ∧
    deleteClient { exCache with allocClient := some { Get := 3, Delete := some "close failed" } } =
      ({ exCache with allocClient := some { Get := 3, Delete := some "close failed" } },
        some "close failed") :=
  ⟨rfl, rfl,
    (registry_lifecycle dialAccepted exCache).1 exConn rfl rfl,
    ((registry_lifecycle dialAccepted exCache).2.2.1 rfl).2,
    rfl,
    (registry_lifecycle dialAccepted
      { exCache with allocClient := some { Get := 3, Delete := some "close failed" } }).2.1
      { Get := 3, Delete := some "close failed" } "close failed" rfl rfl⟩

/-- C16, as stated, fails: `createClient` on an entry that holds a connection
dials again.  When the backend refuses, it returns the error and the entry
ends up without connection; when the backend accepts, the cached connection is
the new one, not the one cached before. -/
theorem createClient_not_kept :
    exCache.allocClient = some exConn ∧
    createClient dialRefused exCache =
      ({ exCache with allocClient := none }, some "connection refused") ∧
    (createClient dialAccepted exCache).2 = none ∧
    (createClient dialAccepted exCache).1.allocClient = some exConnNew ∧
    exConnNew ≠ exConn ∧
    (createClient dialRefused (createClient dialAccepted exCache).1).1 ≠
      (createClient dialAccepted exCache).1 := by
  refine ⟨rfl, rfl, rfl, rfl, by decide, by decide⟩

/-- C16, amended: `createClient` establishes a connection on every call, whether
or not one is cached.  When the establishment succeeds it returns no error and
the cached connection is the new one; when it fails it returns the error and no
connection is cached; the service coordinates are untouched.  Two calls that
meet the same backend leave the state one call leaves. -/
theorem createClient_replaces (allocNew : Config → Except String AllocClient)
    (r : proxycache) :
    (∀ ac, allocNew (clientConfig r) = .ok ac →
      createClient allocNew r = ({ r with allocClient := some ac }, none)) ∧
    (∀ e, allocNew (clientConfig r) = .error e →
      createClient allocNew r = ({ r with allocClient := none }, some e)) ∧
    (createClient allocNew r).1.svcInfo = r.svcInfo ∧
    createClient allocNew (createClient allocNew r).1 = createClient allocNew r := by
  cases hn : allocNew (clientConfig r) with
  | error err =>
    have h1 : createClient allocNew r = ({ r with allocClient := none }, some err) := by
      simp [createClient, hn]
    refine ⟨fun ac h => (by cases h), fun e h => ?_, ?_, ?_⟩
    · injection h with h
      rw [← h, h1]
    · rw [h1]
    · rw [h1]
      have hcfg : clientConfig { r with allocClient := none } = clientConfig r := rfl
      simp only [createClient, hcfg, hn]
  | ok ac =>
    have h1 : createClient allocNew r = ({ r with allocClient := some ac }, none) := by
      simp [createClient, hn]
    refine ⟨fun ac1 h => ?_, fun e h => (by cases h), ?_, ?_⟩
    · injection h with h
      rw [← h, h1]
    · rw [h1]
    · rw [h1]
      have hcfg : clientConfig { r with allocClient := some ac } = clientConfig r := rfl
      simp only [createClient, hcfg, hn]

/-! ## The request router -/

/-- The table after `WithRoutes`, entry by entry. -/
theorem withRoutes_cons (r : subServer) (entry : String × AlloHandler)
    (ahs : List (String × AlloHandler)) :
    r.WithRoutes (entry :: ahs) =
      subServer.WithRoutes
        { h := fun group => if group = entry.1 then some entry.2 else r.h group } ahs := by
  rfl

/-- A group that `ahs` does not name keeps its entry. -/
theorem withRoutes_other (ahs : List (String × AlloHandler)) (r : subServer) (g : String)
    (hg : g ∉ ahs.map Prod.fst) : (r.WithRoutes ahs).h g = r.h g := by
  induction ahs generalizing r with
  | nil => rfl
  | cons entry rest ih =>
    rw [List.map_cons, List.mem_cons, not_or] at hg
    rw [withRoutes_cons, ih _ hg.2]
    simp [hg.1]

/-- A group that `ahs` names once gets the handler `ahs` gives it. -/
theorem withRoutes_named (ahs : List (String × AlloHandler)) (r : subServer)
    (hmap : (ahs.map Prod.fst).Nodup) (g : String) (hd : AlloHandler) (hmem : (g, hd) ∈ ahs) :
    (r.WithRoutes ahs).h g = some hd := by
  induction ahs generalizing r with
  | nil => simp at hmem
  | cons entry rest ih =>
    rw [List.map_cons, List.nodup_cons] at hmap
    rw [withRoutes_cons]
    rcases List.mem_cons.1 hmem with hmem | hmem
    · subst hmem
      rw [withRoutes_other rest _ _ hmap.1]
      simp
    · exact ih _ hmap.2 hmem

/-- C17 (handler registration is a merge): after `WithRoutes(ahs)`, for a map `ahs`
(a list of entries with distinct groups), the table maps every group of `ahs` to
the handler `ahs` gives it and every other group as before; a group that had a
handler still has one, and the groups with a handler are those that had one and
those of `ahs`.  `New` without options has an empty table, and after registering
two distinct groups a third group has no handler while each of the two maps to
its own handler. -/
theorem withRoutes_merge (r : subServer) (ahs : List (String × AlloHandler))
    (hmap : (ahs.map Prod.fst).Nodup) :
    (∀ g hd, (g, hd) ∈ ahs → (r.WithRoutes ahs).h g = some hd) ∧
    (∀ g, g ∉ ahs.map Prod.fst → (r.WithRoutes ahs).h g = r.h g) ∧
    (∀ g, (r.h g).isSome = true → ((r.WithRoutes ahs).h g).isSome = true) ∧
    (∀ g, ((r.WithRoutes ahs).h g).isSome = true ↔
      ((r.h g).isSome = true ∨ g ∈ ahs.map Prod.fst)) ∧
    (∀ g, (New []).h g = none) ∧
    (∀ (a b c : String) (ha hb : AlloHandler), a ≠ b → c ≠ a → c ≠ b →
      (New [WithRoutes [(a, ha), (b, hb)]]).h c = none ∧
      (New [WithRoutes [(a, ha), (b, hb)]]).h a = some ha ∧
      (New [WithRoutes [(a, ha), (b, hb)]]).h b = some hb) := by
  have hin : ∀ g, g ∈ ahs.map Prod.fst → ((r.WithRoutes ahs).h g).isSome = true := by
    intro g hg
    obtain ⟨entry, hmem, hfst⟩ := List.mem_map.1 hg
    have h1 := withRoutes_named ahs r hmap g entry.2 (by rw [← hfst]; exact hmem)
    rw [h1]
    rfl
  refine ⟨withRoutes_named ahs r hmap, withRoutes_other ahs r, ?_, ?_, fun _ => rfl, ?_⟩
  · intro g hg
    by_cases hmem : g ∈ ahs.map Prod.fst
    · exact hin g hmem
    · rw [withRoutes_other ahs r g hmem]
      exact hg
  · intro g
    by_cases hmem : g ∈ ahs.map Prod.fst
    · simp [hmem, hin g hmem]
    · rw [withRoutes_other ahs r g hmem]
      simp [hmem]
  · intro a b c ha hb hab hca hcb
    have hba : b ≠ a := fun h => hab h.symm
    simp [New, WithRoutes, subServer.WithRoutes, hca, hcb, hab, hba]

/-- Witness of `withRoutes_merge`: groups "a" and "b" registered on a fresh
server; "c" has no handler, "a" and "b" have their own. -/
theorem withRoutes_merge_witness :
    ([("a", { name := "ipam" }), ("b", { name := "vlan" })].map
      (Prod.fst : String × AlloHandler → String)).Nodup ∧
    (New [WithRoutes [("a", { name := "ipam" }), ("b", { name := "vlan" })]]).h "c" = none ∧
    (New [WithRoutes [("a", { name := "ipam" }), ("b", { name := "vlan" })]]).h "a"
      = some { name := "ipam" } ∧
    (New [WithRoutes [("a", { name := "ipam" }), ("b", { name := "vlan" })]]).h "b"
      = some { name := "vlan" } :=
  ⟨by decide,
    (withRoutes_merge (New []) [("a", { name := "ipam" }), ("b", { name := "vlan" })]
      (by decide)).2.2.2.2.2 "a" "b" "c" { name := "ipam" } { name := "vlan" }
      (by decide) (by decide) (by decide)⟩

/-! ## The applicator: what triggers the sweep -/

/-- C19, as stated, fails: in the scenario with the network already owned by
`o2`, the Route and the request agree on owner name and namespace and differ in
the label `purpose` only, yet `Apply` removes both children (owned by `o1`) and
calls the watcher with them; and over a RIB without children the watcher is
still called, with an empty batch. -/
theorem relabel_sweeps_children :
    (memRIB exCovers noFaults).Get exRibOwned (lookupKey exAlloc exPi) = some exNetRouteOwned ∧
    exNetRouteOwned.Labels.index NephioNsnNameKey =
      exAlloc.GetFullLabels.index NephioNsnNameKey ∧
    exNetRouteOwned.Labels.index NephioNsnNamespaceKey =
      exAlloc.GetFullLabels.index NephioNsnNamespaceKey ∧
    labelsEquals exAlloc.GetFullLabels exNetRouteOwned.Labels = false ∧
    exPi.IsAddressPrefix = false ∧ exAlloc.GetCreatePrefix = true ∧
    (memRIB exCovers noFaults).Get exRibOwned exAddr1 = some exChild1 ∧
    (memRIB exCovers noFaults).Get
      (Apply (memRIB exCovers noFaults) false exAlloc exPi exRibOwned).rib exAddr1 = none ∧
    (memRIB exCovers noFaults).Get
      (Apply (memRIB exCovers noFaults) false exAlloc exPi exRibOwned).rib exAddr2 = none ∧
    notifications (Apply (memRIB exCovers noFaults) false exAlloc exPi exRibOwned).log =
      [([exChild1, exChild2], StatusCode.Unknown)] ∧
    notifications (Apply (memRIB exCovers noFaults) false exAlloc exPi [exNetRouteOwned]).log =
      [([], StatusCode.Unknown)] := by
  refine ⟨rfl, by decide, by decide, by decide, rfl, rfl, rfl, rfl, rfl, rfl, rfl⟩

/-- C19, amended: the sweep runs whenever the label set changed, whichever keys
differ.  On an existing Route whose owner name and namespace already equal the
allocation's and whose labels differ from the full labels otherwise (not
initializing, not an address prefix, create-prefix true, no error returned),
`Apply` writes the relabelled Route, attempts the deletion of exactly the
children whose owner differs from the allocation's, and calls the watcher exactly
once, with those children and the status code Unknown; when every child carries
the allocation's owner, nothing is deleted and the batch is empty. -/
theorem relabel_runs_sweep {σ : Type} (ops : RIB σ) (alloc : IPAllocation) (pi : PrefixInfo)
    (s : σ) (route : Route)
    (hfound : ops.Get s (lookupKey alloc pi) = some route)
    (_howner : ownerDiffers alloc.GetFullLabels route = false)
    (hdiff : labelsEquals alloc.GetFullLabels route.Labels = false)
    (haddr : pi.IsAddressPrefix = false) (hcreate : alloc.GetCreatePrefix = true)
    (hok : ∃ a, (Apply ops false alloc pi s).ret = .ok a) :
    (∃ err, Event.ribSet (updatedRoute ops alloc route) err ∈ (Apply ops false alloc pi s).log) ∧
    (∀ c, (∃ err, Event.ribDelete c err ∈ (Apply ops false alloc pi s).log) ↔
      (c ∈ sweptChildren ops alloc s route ∧ ownerDiffers alloc.GetFullLabels c = true)) ∧
    notifications (Apply ops false alloc pi s).log =
      [((sweptChildren ops alloc s route).filter (ownerDiffers alloc.GetFullLabels),
        StatusCode.Unknown)] ∧
    ((∀ c ∈ sweptChildren ops alloc s route, ownerDiffers alloc.GetFullLabels c = false) →
      (Apply ops false alloc pi s).rib = ribAfterSet ops alloc s route ∧
      notifications (Apply ops false alloc pi s).log = [([], StatusCode.Unknown)]) := by
  have hupd : fatal (written s (ops.Set s (updatedRoute ops alloc route))).2 = none := by
    obtain ⟨a, ha⟩ := hok
    rw [Apply_differ ops false alloc pi s route hfound hdiff] at ha
    cases hf : fatal (written s (ops.Set s (updatedRoute ops alloc route))).2 with
    | some e => simp [hf] at ha
    | none => rfl
  rw [shape_sweep ops alloc pi s route hfound hdiff hupd haddr hcreate]
  have hnote : notifications
      (Event.ribSet (updatedRoute ops alloc route)
          (written s (ops.Set s (updatedRoute ops alloc route))).2 ::
        ((sweepChildren ops alloc.GetFullLabels (sweptChildren ops alloc s route)
            (ribAfterSet ops alloc s route)).2.2 ++
          [Event.handleUpdate ((sweptChildren ops alloc s route).filter
            (ownerDiffers alloc.GetFullLabels)) StatusCode.Unknown])) =
      [((sweptChildren ops alloc s route).filter (ownerDiffers alloc.GetFullLabels),
        StatusCode.Unknown)] := by
    simp only [notifications, notifications_append, sweepChildren_notifications,
      List.nil_append]
  refine ⟨⟨(written s (ops.Set s (updatedRoute ops alloc route))).2,
    List.mem_cons_self _ _⟩, ?_, hnote, ?_⟩
  · intro c
    constructor
    · rintro ⟨err, hmem⟩
      simp only [List.mem_cons, List.mem_append, List.mem_singleton] at hmem
      rcases hmem with hmem | hmem | hmem
      · cases hmem
      · obtain ⟨c1, e1, h1, h2, h3⟩ := sweepChildren_log _ _ _ _ _ hmem
        injection h1 with h1 _
        subst h1
        exact ⟨h2, h3⟩
      · rcases hmem with hmem | hmem <;> cases hmem
    · rintro ⟨hc, hd⟩
      obtain ⟨err, hmem⟩ := sweepChildren_log_mem ops alloc.GetFullLabels _
        (ribAfterSet ops alloc s route) c hc hd
      exact ⟨err, List.mem_cons_of_mem _ (List.mem_append_left _ hmem)⟩
  · intro hall
    have hidle := sweepChildren_idle ops alloc.GetFullLabels _
      (ribAfterSet ops alloc s route) hall
    have hfilter : (sweptChildren ops alloc s route).filter
        (ownerDiffers alloc.GetFullLabels) = [] := by
      rw [List.filter_eq_nil_iff]
      intro c hc
      simp [hall c hc]
    refine ⟨by simp only [hidle], ?_⟩
    rw [hnote, hfilter]

/-- Witness of `relabel_runs_sweep`: the scenario with the network already owned
by `o2`; both children, owned by `o1`, go into the single batch. -/
theorem relabel_runs_sweep_witness :
    (memRIB exCovers noFaults).Get exRibOwned (lookupKey exAlloc exPi) = some exNetRouteOwned ∧
    ownerDiffers exAlloc.GetFullLabels exNetRouteOwned = false ∧
    labelsEquals exAlloc.GetFullLabels exNetRouteOwned.Labels = false ∧
    sweptChildren (memRIB exCovers noFaults) exAlloc exRibOwned exNetRouteOwned
      = [exChild1, exChild2] ∧
    notifications (Apply (memRIB exCovers noFaults) false exAlloc exPi exRibOwned).log =
      [((sweptChildren (memRIB exCovers noFaults) exAlloc exRibOwned exNetRouteOwned).filter
          (ownerDiffers exAlloc.GetFullLabels), StatusCode.Unknown)] :=
  ⟨rfl, by decide, by decide, by decide,
    (relabel_runs_sweep (memRIB exCovers noFaults) exAlloc exPi exRibOwned exNetRouteOwned
      rfl (by decide) (by decide) rfl rfl ⟨_, rfl⟩).2.2.1⟩

end K8sIpam
